import Mathlib

/-!
Verification development for the CVEWatch repository.

The repository carries two host environments sharing the same core logic:
an Electron main process (src/main-process/main.js together with
src/src/services/nvdService.js) and a VS Code extension
(src/src-extension/services/dependencyScanner.ts and cveService.ts).
This file gives a shallow embedding of that core logic:

* strings are `List Char` (converted from Lean `String` literals at the
  boundary via `strL`), so that everything evaluates inside the kernel;
* JavaScript exceptions are an explicit `Except`;
* the JavaScript regular expressions appearing in the sources are
  transliterated into a small reusable backtracking engine (`RE`, `reM`)
  so that each source regex is carried over literally;
* `JSON.parse` is modelled by an executable recursive-descent parser
  over the same grammar (numbers are kept exactly as scaled decimals
  `mant * 10 ^ exp`, which is exact for every JSON numeral);
* the filesystem walked by the scanner is an inductive tree, and the
  remote NVD endpoint is an injected response value.
-/

/-- Convert a Lean string literal to the character-list representation used
throughout this development. -/
def strL (s : String) : List Char := s.data

/-- Decimal digit test, as in the regex class \d. -/
def isDigitCh (c : Char) : Bool := '0' ≤ c && c ≤ '9'

/-- JavaScript \s (whitespace) on the characters relevant here: space, tab,
newline, carriage return, vertical tab, form feed, no-break space and BOM.
(The full JS class also holds other rare Unicode spaces; they never occur in
the manifests and responses modelled here.) -/
def isSpaceJS (c : Char) : Bool :=
  c = ' ' || c = '\t' || c = '\n' || c = '\r' || c = '\x0b' || c = '\x0c' ||
  c = ' ' || c = '﻿'

/-- The character class [a-zA-Z0-9_-] used by several manifest-line regexes. -/
def isNameCh (c : Char) : Bool :=
  ('a' ≤ c && c ≤ 'z') || ('A' ≤ c && c ≤ 'Z') || isDigitCh c || c = '_' || c = '-'

/-- The character class [a-zA-Z0-9_] (pubspec.yaml line regex: no dash). -/
def isNameNoDashCh (c : Char) : Bool :=
  ('a' ≤ c && c ≤ 'z') || ('A' ≤ c && c ≤ 'Z') || isDigitCh c || c = '_'

/-- Does the list start with the given run of characters? -/
def startsWithL : List Char → List Char → Bool
  | _, [] => true
  | [], _ :: _ => false
  | c :: cs, d :: ds => c = d && startsWithL cs ds

/-- First index (if any) at or after position 0 where the pattern occurs as a
contiguous run; models JavaScript String.prototype.indexOf. -/
def indexOfSub : List Char → List Char → Option Nat
  | s, pat =>
    if startsWithL s pat then some 0
    else match s with
      | [] => none
      | _ :: rest => (indexOfSub rest pat).map (· + 1)

/-- Does the pattern occur anywhere (String.prototype.includes)? -/
def containsSub (s pat : List Char) : Bool := (indexOfSub s pat).isSome

/-- String.prototype.includes with a start index (second argument). -/
def containsSubFrom (s pat : List Char) (start : Nat) : Bool :=
  containsSub (s.drop start) pat

/-- Replace the first occurrence of a plain-string pattern (JavaScript
String.prototype.replace with a string first argument). -/
def replaceFirstSub (s pat repl : List Char) : List Char :=
  match indexOfSub s pat with
  | none => s
  | some i => s.take i ++ repl ++ s.drop (i + pat.length)

/-- Split on a plain-string separator, keeping empty pieces, as
String.prototype.split with a nonempty string argument does.  Fueled by the
input length; the fuel never runs out because every step consumes at least
one character of the input. -/
def splitOnSubFuel : Nat → List Char → List Char → List (List Char)
  | 0, s, _ => [s]
  | f + 1, s, pat =>
    match indexOfSub s pat with
    | none => [s]
    | some i =>
      if pat.length = 0 then [s]
      else s.take i :: splitOnSubFuel f (s.drop (i + pat.length)) pat

def splitOnSub (s pat : List Char) : List (List Char) :=
  splitOnSubFuel (s.length + 1) s pat

/-- content.split('\n'). -/
def splitLines (s : List Char) : List (List Char) := splitOnSub s (strL "\n")

/-- JavaScript String.prototype.trim (both ends, JS whitespace). -/
def trimJS (s : List Char) : List Char :=
  ((s.dropWhile (fun c => isSpaceJS c)).reverse.dropWhile (fun c => isSpaceJS c)).reverse

/-- Decimal digits of a natural number, used for array/string index keys and
for the cache-key suffix. -/
def natDigits (n : Nat) : List Char := (Nat.toDigits 10 n)

/-- basename: the component after the last '/'. -/
def basenameL (s : List Char) : List Char :=
  match splitOnSub s (strL "/") with
  | [] => s
  | parts => parts.getLastD s

/-- path.join of a directory and an entry name (modelled as plain
concatenation with a separator). -/
def joinPath (dir name : List Char) : List Char := dir ++ '/' :: name

/-!  A small backtracking regular-expression engine.  The JavaScript regexes
that appear in the sources are transliterated node for node; the engine
implements the usual leftmost, greedy/lazy backtracking semantics of the JS
engine for this fragment (character classes, concatenation, alternation in
order, greedy and lazy repetition, optional groups, capture groups,
zero-width lookahead, end-of-input).  Matching is fueled; drivers pass a fuel
large enough for every input actually encountered. -/

inductive RE where
  | eps
  | chr (c : Char)
  | cls (neg : Bool) (p : Char → Bool)
  | dot
  | cat (a b : RE)
  | alt (a b : RE)
  | star (lazy : Bool) (a : RE)
  | opt (lazy : Bool) (a : RE)
  | grp (i : Nat) (a : RE)
  | look (a : RE)
  | eos

/-- x+ is x followed by x*. -/
def REplus (lazy : Bool) (a : RE) : RE := .cat a (.star lazy a)

/-- A literal character sequence. -/
def RElit : List Char → RE
  | [] => .eps
  | c :: cs => .cat (.chr c) (RElit cs)

def RElitS (s : String) : RE := RElit (strL s)

/-- [\s\S]: any character at all. -/
def REany : RE := .cls true (fun _ => false)

/-- \s* and \s+ and helpers. -/
def REwsStar : RE := .star false (.cls false isSpaceJS)

def REwsPlus : RE := REplus false (.cls false isSpaceJS)

abbrev Caps := List (Nat × List Char)

def setCap (caps : Caps) (i : Nat) (v : List Char) : Caps :=
  (i, v) :: caps.filter (fun kv => kv.1 ≠ i)

def getCap (caps : Caps) (i : Nat) : Option (List Char) :=
  (caps.find? (fun kv => kv.1 = i)).map (·.2)

/-- The continuation-passing matcher.  `reM fuel re s caps k` tries to match
`re` against a prefix of `s`, calling `k` with the remaining input and the
capture list; backtracking is by trying the continuation on each candidate in
preference order.  A successful overall match returns the final remaining
input and captures. -/
def reM : Nat → RE → List Char → Caps →
    (List Char → Caps → Option (List Char × Caps)) → Option (List Char × Caps)
  | 0, _, _, _, _ => none
  | f + 1, re, s, caps, k =>
    match re with
    | .eps => k s caps
    | .chr c =>
      match s with
      | [] => none
      | x :: rest => if x = c then k rest caps else none
    | .cls neg p =>
      match s with
      | [] => none
      | x :: rest => if p x ≠ neg then k rest caps else none
    | .dot =>
      match s with
      | [] => none
      | x :: rest => if x = '\n' ∨ x = '\r' then none else k rest caps
    | .cat a b => reM f a s caps (fun s' c' => reM f b s' c' k)
    | .alt a b =>
      match reM f a s caps k with
      | some r => some r
      | none => reM f b s caps k
    | .star lazy a =>
      if lazy then
        match k s caps with
        | some r => some r
        | none =>
          reM f a s caps (fun s' c' =>
            if s'.length < s.length then reM f (.star true a) s' c' k else none)
      else
        match reM f a s caps (fun s' c' =>
            if s'.length < s.length then reM f (.star false a) s' c' k else none) with
        | some r => some r
        | none => k s caps
    | .opt lazy a =>
      if lazy then
        match k s caps with
        | some r => some r
        | none => reM f a s caps k
      else
        match reM f a s caps k with
        | some r => some r
        | none => k s caps
    | .grp i a =>
      reM f a s caps (fun s' c' => k s' (setCap c' i (s.take (s.length - s'.length))))
    | .look a =>
      match reM f a s caps (fun s'' c'' => some (s'', c'')) with
      | some (_, c') => k s c'
      | none => none
    | .eos => if s = [] then k s caps else none

/-- Size of a regex, for computing a sufficient fuel. -/
def reSize : RE → Nat
  | .eps | .chr _ | .cls _ _ | .dot | .eos => 1
  | .cat a b | .alt a b => reSize a + reSize b + 1
  | .star _ a | .opt _ a | .grp _ a | .look a => reSize a + 1

def reFuel (re : RE) (s : List Char) : Nat :=
  (s.length + 2) * (reSize re + 2) * 4 + 64

/-- Match anchored at the start of the input (a regex written with a leading
^ in the source).  Returns the length of the match and the captures. -/
def reAtStart (re : RE) (s : List Char) : Option (Nat × Caps) :=
  match reM (reFuel re s) re s [] (fun s' c' => some (s', c')) with
  | some (rest, caps) => some (s.length - rest.length, caps)
  | none => none

/-- Unanchored search for the first (leftmost) match, as String.match with a
non-global regex: returns (start index, match length, captures). -/
def reSearch (re : RE) (s : List Char) : Option (Nat × Nat × Caps) :=
  match reAtStart re s with
  | some (len, caps) => some (0, len, caps)
  | none =>
    match s with
    | [] => none
    | _ :: rest => (reSearch re rest).map (fun r => (r.1 + 1, r.2))

/-- All matches, as String.matchAll with a global regex: scan left to right,
resuming after each match (advancing one character past empty matches). -/
def reMatchAllFuel : Nat → RE → List Char → List Caps
  | 0, _, _ => []
  | f + 1, re, s =>
    match reSearch re s with
    | none => []
    | some (start, len, caps) =>
      let adv := start + (if len = 0 then 1 else len)
      caps :: reMatchAllFuel f re (s.drop adv)

def reMatchAll (re : RE) (s : List Char) : List Caps :=
  reMatchAllFuel (s.length + 1) re s

/-!  JSON values and JSON.parse.  Numbers are kept exactly: `num m e` denotes
the value m * 10 ^ e, which represents every JSON numeral without loss (the
JS engine's float64 rounding is abstracted away; none of the claims depend
on it).  Object fields are kept in insertion order with duplicate keys
resolved as JSON.parse resolves them (later value wins, first position). -/

inductive Json where
  | null
  | bool (b : Bool)
  | num (mant : Int) (exp : Int)
  | str (s : List Char)
  | arr (elems : List Json)
  | obj (fields : List (List Char × Json))

instance : Inhabited Json := ⟨Json.null⟩

/-- Property assignment on an insertion-ordered field list: an existing key
keeps its position and gets the new value; a new key is appended. -/
def assignField (fields : List (List Char × Json)) (k : List Char) (v : Json) :
    List (List Char × Json) :=
  if fields.any (fun kv => kv.1 = k) then
    fields.map (fun kv => if kv.1 = k then (k, v) else kv)
  else fields ++ [(k, v)]

def skipWsJ (s : List Char) : List Char :=
  s.dropWhile (fun c => c = ' ' || c = '\t' || c = '\n' || c = '\r')

/-- Parse the body of a JSON string after the opening quote; returns the
decoded characters and the input after the closing quote.  Control
characters below U+0020 are rejected, as JSON.parse rejects them.  A \uXXXX
escape giving a lone surrogate becomes U+FFFD (Lean characters are scalar
values; lone surrogates cannot occur in the manifests modelled here). -/
def pStr : Nat → List Char → Option (List Char × List Char)
  | 0, _ => none
  | _ + 1, [] => none
  | f + 1, c :: rest =>
    if c = '"' then some ([], rest)
    else if c.toNat < 32 then none
    else if c = '\\' then
      match rest with
      | [] => none
      | e :: rest' =>
        let simple : Option Char :=
          if e = '"' then some '"' else if e = '\\' then some '\\'
          else if e = '/' then some '/' else if e = 'b' then some '\x08'
          else if e = 'f' then some '\x0c' else if e = 'n' then some '\n'
          else if e = 'r' then some '\r' else if e = 't' then some '\t'
          else none
        match simple with
        | some d => (pStr f rest').map (fun r => (d :: r.1, r.2))
        | none =>
          if e = 'u' then
            match rest' with
            | h1 :: h2 :: h3 :: h4 :: rest'' =>
              let hexVal (h : Char) : Option Nat :=
                if '0' ≤ h ∧ h ≤ '9' then some (h.toNat - '0'.toNat)
                else if 'a' ≤ h ∧ h ≤ 'f' then some (h.toNat - 'a'.toNat + 10)
                else if 'A' ≤ h ∧ h ≤ 'F' then some (h.toNat - 'A'.toNat + 10)
                else none
              match hexVal h1, hexVal h2, hexVal h3, hexVal h4 with
              | some a, some b, some c', some d =>
                let n := ((a * 16 + b) * 16 + c') * 16 + d
                let ch := if n < 0xd800 ∨ 0xdfff < n then Char.ofNat n else '�'
                (pStr f rest'').map (fun r => (ch :: r.1, r.2))
              | _, _, _, _ => none
            | _ => none
          else none
    else (pStr f rest).map (fun r => (c :: r.1, r.2))

/-- Parse a JSON numeral: -? (0 | [1-9][0-9]*) (. [0-9]+)? ([eE][+-]?[0-9]+)?
returning mantissa, power-of-ten exponent and the rest of the input. -/
def pNum (s : List Char) : Option (Int × Int × List Char) :=
  let (neg, s1) := if startsWithL s (strL "-") then (true, s.drop 1) else (false, s)
  let intDigits := s1.takeWhile isDigitCh
  let s2 := s1.drop intDigits.length
  if intDigits.length = 0 then none
  else if 1 < intDigits.length ∧ startsWithL intDigits (strL "0") then none
  else
    let (fracDigits, s3) :=
      if startsWithL s2 (strL ".") then
        let fd := (s2.drop 1).takeWhile isDigitCh
        (fd, s2.drop (1 + fd.length))
      else ([], s2)
    if startsWithL s2 (strL ".") ∧ fracDigits.length = 0 then none
    else
      let hasExp := startsWithL s3 (strL "e") ∨ startsWithL s3 (strL "E")
      let digitsToNat (ds : List Char) : Nat :=
        ds.foldl (fun acc d => acc * 10 + (d.toNat - '0'.toNat)) 0
      let mantNat := digitsToNat (intDigits ++ fracDigits)
      let mant : Int := if neg then -(mantNat : Int) else (mantNat : Int)
      if hasExp then
        let s4 := s3.drop 1
        let (eneg, s5) :=
          if startsWithL s4 (strL "-") then (true, s4.drop 1)
          else if startsWithL s4 (strL "+") then (false, s4.drop 1)
          else (false, s4)
        let expDigits := s5.takeWhile isDigitCh
        if expDigits.length = 0 then none
        else
          let ev : Int := if eneg then -(digitsToNat expDigits : Int) else (digitsToNat expDigits : Int)
          some (mant, ev - (fracDigits.length : Int), s5.drop expDigits.length)
      else some (mant, -(fracDigits.length : Int), s3)

/-- Parser task: a value, the continuation of an array, or the continuation
of an object (one state machine keeps the recursion structural on fuel). -/
inductive PTask where
  | val (s : List Char)
  | arrRest (acc : List Json) (s : List Char)
  | objRest (acc : List (List Char × Json)) (s : List Char)

def pJ : Nat → PTask → Option (Json × List Char)
  | 0, _ => none
  | f + 1, .val s =>
    let s := skipWsJ s
    match s with
    | [] => none
    | c :: rest =>
      if c = '{' then
        let r := skipWsJ rest
        if startsWithL r (strL "\x7d") then some (.obj [], r.drop 1)
        else pJ f (.objRest [] r)
      else if c = '[' then
        let r := skipWsJ rest
        if startsWithL r (strL "]") then some (.arr [], r.drop 1)
        else pJ f (.arrRest [] r)
      else if c = '"' then
        (pStr (rest.length + 1) rest).map (fun r => (.str r.1, r.2))
      else if c = 't' then
        if startsWithL rest (strL "rue") then some (.bool true, rest.drop 3) else none
      else if c = 'f' then
        if startsWithL rest (strL "alse") then some (.bool false, rest.drop 4) else none
      else if c = 'n' then
        if startsWithL rest (strL "ull") then some (.null, rest.drop 3) else none
      else
        (pNum s).map (fun r => (.num r.1 r.2.1, r.2.2))
  | f + 1, .arrRest acc s =>
    match pJ f (.val s) with
    | none => none
    | some (v, rest) =>
      let r := skipWsJ rest
      if startsWithL r (strL ",") then pJ f (.arrRest (acc ++ [v]) (r.drop 1))
      else if startsWithL r (strL "]") then some (.arr (acc ++ [v]), r.drop 1)
      else none
  | f + 1, .objRest acc s =>
    let s := skipWsJ s
    match s with
    | '"' :: rest =>
      match pStr (rest.length + 1) rest with
      | none => none
      | some (k, rest') =>
        let r := skipWsJ rest'
        if startsWithL r (strL ":") then
          match pJ f (.val (r.drop 1)) with
          | none => none
          | some (v, rest'') =>
            let r2 := skipWsJ rest''
            if startsWithL r2 (strL ",") then pJ f (.objRest (assignField acc k v) (r2.drop 1))
            else if startsWithL r2 (strL "\x7d") then some (.obj (assignField acc k v), r2.drop 1)
            else none
        else none
    | _ => none

/-- The model of JSON.parse: parse one value and require only trailing
whitespace after it. -/
def jsonParse (s : List Char) : Option Json :=
  match pJ (2 * s.length + 4) (.val s) with
  | some (v, rest) => if skipWsJ rest = [] then some v else none
  | none => none

/-!  JavaScript value semantics over parsed JSON values: truthiness, member
access (a TypeError on null/undefined bases is an explicit error), optional
chaining, spread into an object literal, string coercion.  Only behaviour
that the embedded sources can reach is modelled. -/

/-- The one JavaScript exception kind the embedded code can raise from value
access: a TypeError (member access on null/undefined, calling a
non-function, calling .replace on a non-string, ...). -/
inductive JsErr where
  | typeError
deriving DecidableEq

/-- JavaScript truthiness of a parsed JSON value. -/
def Json.truthy : Json → Bool
  | .null => false
  | .bool b => b
  | .num m _ => m ≠ 0
  | .str s => s ≠ []
  | .arr _ => true
  | .obj _ => true

/-- Truthiness of a possibly-undefined value (undefined is falsy). -/
def jsTruthy : Option Json → Bool
  | none => false
  | some j => j.truthy

def digitsToNatL (ds : List Char) : Nat :=
  ds.foldl (fun acc d => acc * 10 + (d.toNat - '0'.toNat)) 0

/-- Is the key a canonical array-index string ("0", "1", ... without leading
zeros)? -/
def isIndexKey (k : List Char) : Bool :=
  k ≠ [] && k.all isDigitCh && (k = strL "0" || !startsWithL k (strL "0"))

/-- Member access base.key.  A null base throws; an object looks the key up;
strings and arrays expose length and their indices; other primitives have no
own properties (the result is undefined). -/
def jsField : Json → List Char → Except JsErr (Option Json)
  | .null, _ => .error .typeError
  | .obj fs, k => .ok ((fs.find? (fun kv => kv.1 = k)).map (·.2))
  | .str s, k =>
    if k = strL "length" then .ok (some (.num (s.length : Int) 0))
    else if isIndexKey k && digitsToNatL k < s.length then
      .ok (some (.str [s.getD (digitsToNatL k) ' ']))
    else .ok none
  | .arr xs, k =>
    if k = strL "length" then .ok (some (.num (xs.length : Int) 0))
    else if isIndexKey k && digitsToNatL k < xs.length then
      .ok (xs.get? (digitsToNatL k))
    else .ok none
  | _, _ => .ok none

/-- Member access on a possibly-undefined base: undefined.key throws. -/
def jsFieldOpt : Option Json → List Char → Except JsErr (Option Json)
  | none, _ => .error .typeError
  | some j, k => jsField j k

/-- Optional chaining base?.key: a null or undefined base short-circuits to
undefined instead of throwing. -/
def jsOptChain : Option Json → List Char → Except JsErr (Option Json)
  | none, _ => .ok none
  | some .null, _ => .ok none
  | some j, k => jsField j k

/-- Indexing base[i] with a number literal. -/
def jsAt (o : Option Json) (i : Nat) : Except JsErr (Option Json) :=
  jsFieldOpt o (natDigits i)

/-- The own enumerable entries a value contributes when spread into an object
literal: objects their fields, strings and arrays their indexed elements,
null/undefined and other primitives nothing. -/
def spreadEntries : Option Json → List (List Char × Json)
  | some (.obj fs) => fs
  | some (.str s) => (s.enum).map (fun ic => (natDigits ic.1, .str [ic.2]))
  | some (.arr xs) => (xs.enum).map (fun ix => (natDigits ix.1, ix.2))
  | _ => []

/-- An object literal built from two spreads, \x7b...a, ...b\x7d: assign all of
a's entries, then all of b's (later values win, first position kept). -/
def spreadMerge (xs ys : List (List Char × Json)) : List (List Char × Json) :=
  (xs ++ ys).foldl (fun acc kv => assignField acc kv.1 kv.2) []

/-- Render the exact decimal m * 10 ^ e; trailing fractional zeros are
stripped the way JS number formatting strips them.  (For the very large or
tiny magnitudes where JS switches to exponent form this rendering diverges;
no claim depends on number formatting.) -/
def renderNum (m e : Int) : List Char :=
  let sign : List Char := if m < 0 then strL "-" else []
  let mag := m.natAbs
  if 0 ≤ e then
    sign ++ natDigits mag ++ List.replicate e.toNat '0'
  else
    let fracLen := (-e).toNat
    let ds := natDigits mag
    let ds := if ds.length ≤ fracLen then List.replicate (fracLen + 1 - ds.length) '0' ++ ds else ds
    let intPart := ds.take (ds.length - fracLen)
    let fracPart := (ds.drop (ds.length - fracLen)).reverse.dropWhile (fun c => c = '0') |>.reverse
    if fracPart = [] then sign ++ intPart else sign ++ intPart ++ '.' :: fracPart

/-- JavaScript String(v) / template-literal coercion of a parsed JSON value. -/
def jsToStringF : Nat → Json → List Char
  | _, .null => strL "null"
  | _, .bool b => if b then strL "true" else strL "false"
  | _, .num m e => renderNum m e
  | _, .str s => s
  | 0, _ => []
  | f + 1, .arr xs => List.intercalate (strL ",") (xs.map (fun x => jsToStringF f x))
  | _ + 1, .obj _ => strL "[object Object]"

/-- The fuel only limits array nesting depth, far beyond anything reachable
here. -/
def jsToString (j : Json) : List Char := jsToStringF 1000 j

/-- String coercion of a possibly-undefined value (String(undefined) is
"undefined"). -/
def jsToStringOpt : Option Json → List Char
  | none => strL "undefined"
  | some j => jsToString j

/-- Exact comparison m1*10^e1 ≤ m2*10^e2 by cross-scaling to the smaller
exponent. -/
def numLE (m1 e1 m2 e2 : Int) : Bool :=
  let m := min e1 e2
  m1 * (10 : Int) ^ (e1 - m).toNat ≤ m2 * (10 : Int) ^ (e2 - m).toNat

/-- Exact value equality of two JSON numbers. -/
def numEqv (m1 e1 m2 e2 : Int) : Bool :=
  numLE m1 e1 m2 e2 && numLE m2 e2 m1 e1

/-- ToNumber on the values the embedded comparisons can meet; none is NaN.
(String-to-number coercion nuances beyond plain numerals are abstracted to
NaN; no claim depends on them.) -/
def jsNumVal : Option Json → Option (Int × Int)
  | some (.num m e) => some (m, e)
  | some .null => some (0, 0)
  | some (.bool b) => some (if b then 1 else 0, 0)
  | _ => none

/-- JavaScript v >= c for an integral threshold c (false when v is NaN). -/
def jsGE (v : Option Json) (c : Int) : Bool :=
  match jsNumVal v with
  | some (m, e) => numLE c 0 m e
  | none => false

/-- JavaScript v?.length > 0 as it appears in parseCVSSScore. -/
def jsLenPos (v : Option Json) : Bool :=
  match v with
  | none => false
  | some .null => false
  | some (.arr xs) => decide (0 < xs.length)
  | some (.str s) => decide (0 < s.length)
  | some (.obj fs) => jsGE ((fs.find? (fun kv => kv.1 = strL "length")).map (·.2)) 1
  | _ => false

/-- Strict equality x === "en" and friends for string literals. -/
def jsStrictEqStr (v : Option Json) (s : List Char) : Bool :=
  match v with
  | some (.str t) => t = s
  | _ => false

/-!  The ManifestParser.  Each recognized file name gets the parser from
parseDependencyFile in src/main-process/main.js (and, for the subset it
handles, from DependencyScanner.parseDependencyFile in
src/src-extension/services/dependencyScanner.ts).  Every JS regex literal is
transliterated into the RE engine next to its use. -/

/-- One extracted dependency record: \x7bname, version, ecosystem, type\x7d. -/
structure Dep where
  name : List Char
  version : List Char
  ecosystem : String
  type : String
deriving DecidableEq

/-- What kind of exception the parser body threw: a JSON.parse SyntaxError or
a TypeError from value access. -/
inductive PEKind where
  | badJson
  | typeErr
deriving DecidableEq

/-- An exception also carries the dependency list accumulated up to the throw
point, because the catch block of parseDependencyFile falls through to
`return dependencies`. -/
abbrev PErr := PEKind × List Dep

abbrev PRes := Except PErr (List Dep)

/-- A push-loop that threads the accumulated list and stops at a throw. -/
def foldE {α : Type} (step : List Dep → α → PRes) : List α → List Dep → PRes
  | [], acc => .ok acc
  | x :: xs, acc =>
    match step acc x with
    | .error e => .error e
    | .ok acc' => foldE step xs acc'

/-- version.replace(/^[\^~>=<]+/, ''): strip one leading run of range
operators. -/
def versionStripRange (s : List Char) : List Char :=
  s.dropWhile (fun c => c = '^' || c = '~' || c = '>' || c = '=' || c = '<')

def isReqOpCh (c : Char) : Bool := c = '=' || c = '<' || c = '>' || c = '!'

def isPyOpCh (c : Char) : Bool := c = '>' || c = '<' || c = '=' || c = '!'

def isQuoteCh (c : Char) : Bool := c = '\'' || c = '"'

def isUpperCh (c : Char) : Bool := 'A' ≤ c && c ≤ 'Z'

/-- requirements.txt line: /^([a-zA-Z0-9_-]+)([=<>!]+)?(.+)?/ -/
def reqLineRE : RE :=
  .cat (.grp 1 (REplus false (.cls false isNameCh)))
    (.cat (.opt false (.grp 2 (REplus false (.cls false isReqOpCh))))
      (.opt false (.grp 3 (REplus false .dot))))

def parseRequirementsTxt (content : List Char) : List Dep :=
  (splitLines content).foldl (fun acc line =>
    let trimmed := trimJS line
    if trimmed ≠ [] ∧ ¬ startsWithL trimmed (strL "#") ∧ ¬ startsWithL trimmed (strL "-") then
      match reAtStart reqLineRE trimmed with
      | some (_, caps) =>
        acc ++ [⟨(getCap caps 1).getD [], (getCap caps 3).getD (strL "latest"), "pypi", "prod"⟩]
      | none => acc
    else acc) []

/-- Cargo.toml / Pipfile section extractor tail:
([\s\S]*?)(?=\[|$) after a literal header. -/
def sectionTailRE : RE :=
  .cat (.grp 1 (.star true REany)) (.look (.alt (.chr '[') .eos))

def cargoTomlSectionRE : RE := .cat (RElitS "[dependencies]") sectionTailRE

/-- Shared key-value line of Cargo.toml and Pipfile:
/^([a-zA-Z0-9_-]+)\s*=\s*"?([^"]+)"?/ -/
def kvLineRE : RE :=
  .cat (.grp 1 (REplus false (.cls false isNameCh)))
    (.cat REwsStar (.cat (.chr '=') (.cat REwsStar
      (.cat (.opt false (.chr '"'))
        (.cat (.grp 2 (REplus false (.cls true (fun c => c = '"'))))
          (.opt false (.chr '"')))))))

def parseCargoToml (content : List Char) : List Dep :=
  match reSearch cargoTomlSectionRE content with
  | none => []
  | some (_, _, caps) =>
    let depLines := splitLines ((getCap caps 1).getD [])
    depLines.foldl (fun acc line =>
      match reAtStart kvLineRE line with
      | some (_, c) =>
        acc ++ [⟨(getCap c 1).getD [], (getCap c 2).getD [], "cargo", "prod"⟩]
      | none => acc) []

/-- Cargo.lock per-piece searches: /name\s*=\s*"([^"]+)"/ and the same with
version. -/
def tomlKeySearchRE (key : String) : RE :=
  .cat (RElitS key) (.cat REwsStar (.cat (.chr '=') (.cat REwsStar
    (.cat (.chr '"')
      (.cat (.grp 1 (REplus false (.cls true (fun c => c = '"')))) (.chr '"'))))))

def parseCargoLock (content : List Char) : List Dep :=
  (splitOnSub content (strL "[[package]]")).foldl (fun acc piece =>
    match reSearch (tomlKeySearchRE "name") piece, reSearch (tomlKeySearchRE "version") piece with
    | some (_, _, nc), some (_, _, vc) =>
      acc ++ [⟨(getCap nc 1).getD [], (getCap vc 1).getD [], "cargo", "prod"⟩]
    | _, _ => acc) []

/-- go.mod require line: /^\s*([^\s]+)\s+v?([^\s]+)/ -/
def goModLineRE : RE :=
  .cat REwsStar (.cat (.grp 1 (REplus false (.cls true isSpaceJS)))
    (.cat REwsPlus (.cat (.opt false (.chr 'v'))
      (.grp 2 (REplus false (.cls true isSpaceJS))))))

def parseGoMod (content : List Char) : List Dep :=
  ((splitLines content).foldl (fun st line =>
    let (inRequire, acc) := st
    if containsSub line (strL "require (") then (true, acc)
    else if inRequire ∧ containsSub line (strL ")") then (false, acc)
    else if inRequire ∨ startsWithL line (strL "require ") then
      match reAtStart goModLineRE line with
      | some (_, c) =>
        if (getCap c 1).getD [] ≠ strL "require" then
          (inRequire, acc ++ [⟨(getCap c 1).getD [], (getCap c 2).getD [], "go", "prod"⟩])
        else (inRequire, acc)
      | none => (inRequire, acc)
    else (inRequire, acc)) (false, [])).2

/-- go.sum line: /^([^\s]+)\s+v([^\s/]+)/ -/
def goSumLineRE : RE :=
  .cat (.grp 1 (REplus false (.cls true isSpaceJS)))
    (.cat REwsPlus (.cat (.chr 'v')
      (.grp 2 (REplus false (.cls true (fun c => isSpaceJS c || c = '/'))))))

def parseGoSum (content : List Char) : List Dep :=
  ((splitLines content).foldl (fun st line =>
    let (seen, acc) := st
    match reAtStart goSumLineRE line with
    | some (_, c) =>
      let nm := (getCap c 1).getD []
      if seen.any (fun s => s = nm) then (seen, acc)
      else (nm :: seen, acc ++ [⟨nm, (getCap c 2).getD [], "go", "prod"⟩])
    | none => (seen, acc)) (([] : List (List Char)), [])).2

/-- Gemfile / Podfile declaration line: /^\s*gem\s+['"]([^'"]+)['"]/ (with pod
for Podfile), and the version search /,\s*['"]([^'"]+)['"]/. -/
def declLineRE (kw : String) : RE :=
  .cat REwsStar (.cat (RElitS kw) (.cat REwsPlus
    (.cat (.cls false isQuoteCh)
      (.cat (.grp 1 (REplus false (.cls true isQuoteCh))) (.cls false isQuoteCh)))))

def declVersionRE : RE :=
  .cat (.chr ',') (.cat REwsStar
    (.cat (.cls false isQuoteCh)
      (.cat (.grp 1 (REplus false (.cls true isQuoteCh))) (.cls false isQuoteCh))))

def parseDeclLines (kw : String) (eco : String) (content : List Char) : List Dep :=
  (splitLines content).foldl (fun acc line =>
    match reAtStart (declLineRE kw) line with
    | some (_, c) =>
      let version :=
        match reSearch declVersionRE line with
        | some (_, _, vc) => (getCap vc 1).getD []
        | none => strL "latest"
      acc ++ [⟨(getCap c 1).getD [], version, eco, "prod"⟩]
    | none => acc) []

/-- Gemfile.lock: /specs:\n([\s\S]*?)(?=\n\S|$)/ then per line
/^ \x7b4\x7d([a-zA-Z0-9_-]+)\s+\(([^)]+)\)/. -/
def gemSpecsRE : RE :=
  .cat (RElitS "specs:") (.cat (.chr '\n')
    (.cat (.grp 1 (.star true REany))
      (.look (.alt (.cat (.chr '\n') (.cls true isSpaceJS)) .eos))))

def gemLockLineRE : RE :=
  .cat (RElitS "    ") (.cat (.grp 1 (REplus false (.cls false isNameCh)))
    (.cat REwsPlus (.cat (.chr '(')
      (.cat (.grp 2 (REplus false (.cls true (fun c => c = ')')))) (.chr ')')))))

def parseGemfileLock (content : List Char) : List Dep :=
  match reSearch gemSpecsRE content with
  | none => []
  | some (_, _, caps) =>
    (splitLines ((getCap caps 1).getD [])).foldl (fun acc line =>
      match reAtStart gemLockLineRE line with
      | some (_, c) =>
        acc ++ [⟨(getCap c 1).getD [], (getCap c 2).getD [], "rubygems", "prod"⟩]
      | none => acc) []

/-- Pipfile: the [packages] and [dev-packages] sections with the shared
key-value line; "*" becomes "latest". -/
def pipfileSection (header : String) (isDev : Bool) (content : List Char) : List Dep :=
  match reSearch (.cat (RElitS header) sectionTailRE) content with
  | none => []
  | some (_, _, caps) =>
    (splitLines ((getCap caps 1).getD [])).foldl (fun acc line =>
      match reAtStart kvLineRE line with
      | some (_, c) =>
        let v := (getCap c 2).getD []
        acc ++ [⟨(getCap c 1).getD [], if v = strL "*" then strL "latest" else v, "pypi",
          if isDev then "dev" else "prod"⟩]
      | none => acc) []

def parsePipfile (content : List Char) : List Dep :=
  pipfileSection "[packages]" false content ++ pipfileSection "[dev-packages]" true content

/-- pyproject.toml PEP 621 block:
/\[project\][\s\S]*?dependencies\s*=\s*\[([\s\S]*?)\]/ and per-entry
/"([a-zA-Z0-9_-]+)([><=!]+)?([^"]+)?"/g. -/
def pyprojectPep621RE : RE :=
  .cat (RElitS "[project]") (.cat (.star true REany)
    (.cat (RElitS "dependencies") (.cat REwsStar (.cat (.chr '=')
      (.cat REwsStar (.cat (.chr '[')
        (.cat (.grp 1 (.star true REany)) (.chr ']'))))))))

def pyprojectEntryRE : RE :=
  .cat (.chr '"') (.cat (.grp 1 (REplus false (.cls false isNameCh)))
    (.cat (.opt false (.grp 2 (REplus false (.cls false isPyOpCh))))
      (.cat (.opt false (.grp 3 (REplus false (.cls true (fun c => c = '"')))))
        (.chr '"'))))

def pyprojectPoetryRE : RE := .cat (RElitS "[tool.poetry.dependencies]") sectionTailRE

/-- Poetry lines: /^([a-zA-Z0-9_-]+)\s*=\s*"([^"]+)"/ and
/^([a-zA-Z0-9_-]+)\s*=\s*\x7b.*version\s*=\s*"([^"]+)"/. -/
def poetrySimpleRE : RE :=
  .cat (.grp 1 (REplus false (.cls false isNameCh)))
    (.cat REwsStar (.cat (.chr '=') (.cat REwsStar
      (.cat (.chr '"')
        (.cat (.grp 2 (REplus false (.cls true (fun c => c = '"')))) (.chr '"'))))))

def poetryComplexRE : RE :=
  .cat (.grp 1 (REplus false (.cls false isNameCh)))
    (.cat REwsStar (.cat (.chr '=') (.cat REwsStar
      (.cat (.chr '\x7b') (.cat (.star false .dot)
        (.cat (RElitS "version") (.cat REwsStar (.cat (.chr '=') (.cat REwsStar
          (.cat (.chr '"')
            (.cat (.grp 2 (REplus false (.cls true (fun c => c = '"')))) (.chr '"'))))))))))))

def parsePyprojectToml (content : List Char) : List Dep :=
  let fromPep621 :=
    match reSearch pyprojectPep621RE content with
    | none => []
    | some (_, _, caps) =>
      (reMatchAll pyprojectEntryRE ((getCap caps 1).getD [])).foldl (fun acc c =>
        acc ++ [⟨(getCap c 1).getD [], (getCap c 3).getD (strL "latest"), "pypi", "prod"⟩]) []
  let fromPoetry :=
    match reSearch pyprojectPoetryRE content with
    | none => []
    | some (_, _, caps) =>
      (splitLines ((getCap caps 1).getD [])).foldl (fun acc line =>
        let m :=
          match reAtStart poetrySimpleRE line with
          | some r => some r
          | none => reAtStart poetryComplexRE line
        match m with
        | some (_, c) =>
          if (getCap c 1).getD [] ≠ strL "python" then
            acc ++ [⟨(getCap c 1).getD [], versionStripRange ((getCap c 2).getD []), "pypi", "prod"⟩]
          else acc
        | none => acc) []
  fromPep621 ++ fromPoetry

/-- pubspec.yaml block: /dependencies:\s*\n((?:\s+[^\n]+\n?)*)/ and per line
/^\s+([a-zA-Z0-9_]+):\s*(.+)?/. -/
def pubspecHeadRE : RE :=
  .cat (RElitS "dependencies:") (.cat REwsStar (.cat (.chr '\n')
    (.grp 1 (.star false (.cat REwsPlus
      (.cat (REplus false (.cls true (fun c => c = '\n'))) (.opt false (.chr '\n'))))))))

def pubspecLineRE : RE :=
  .cat REwsPlus (.cat (.grp 1 (REplus false (.cls false isNameNoDashCh)))
    (.cat (.chr ':') (.cat REwsStar (.opt false (.grp 2 (REplus false .dot))))))

def parsePubspecYaml (content : List Char) : List Dep :=
  match reSearch pubspecHeadRE content with
  | none => []
  | some (_, _, caps) =>
    (splitLines ((getCap caps 1).getD [])).foldl (fun acc line =>
      match reAtStart pubspecLineRE line with
      | some (_, c) =>
        if ¬ startsWithL ((getCap c 1).getD []) (strL "#") then
          let version :=
            match getCap c 2 with
            | some v => let t := trimJS v; if t = [] then strL "latest" else t
            | none => strL "latest"
          acc ++ [⟨(getCap c 1).getD [], version, "pub", "prod"⟩]
        else acc
      | none => acc) []

/-- Podfile.lock: /PODS:\n([\s\S]*?)(?=\n[A-Z]|$)/ then per line
/^ \x7b2\x7d- ([^\s(]+)\s*\(([^)]+)\)/. -/
def podsHeadRE : RE :=
  .cat (RElitS "PODS:") (.cat (.chr '\n')
    (.cat (.grp 1 (.star true REany))
      (.look (.alt (.cat (.chr '\n') (.cls false isUpperCh)) .eos))))

def podLockLineRE : RE :=
  .cat (RElitS "  - ")
    (.cat (.grp 1 (REplus false (.cls true (fun c => isSpaceJS c || c = '('))))
      (.cat REwsStar (.cat (.chr '(')
        (.cat (.grp 2 (REplus false (.cls true (fun c => c = ')')))) (.chr ')')))))

def parsePodfileLock (content : List Char) : List Dep :=
  match reSearch podsHeadRE content with
  | none => []
  | some (_, _, caps) =>
    (splitLines ((getCap caps 1).getD [])).foldl (fun acc line =>
      match reAtStart podLockLineRE line with
      | some (_, c) =>
        acc ++ [⟨(getCap c 1).getD [], (getCap c 2).getD [], "cocoapods", "prod"⟩]
      | none => acc) []

/-- Package.swift:
/\.package\([^)]*url:\s*"[^"]*\/([^"\/]+?)(?:\.git)?"\s*,\s*(?:from:|\.upToNextMajor\(from:)\s*"([^"]+)"/g -/
def swiftPackageRE : RE :=
  .cat (.chr '.') (.cat (RElitS "package(")
    (.cat (.star false (.cls true (fun c => c = ')')))
      (.cat (RElitS "url:") (.cat REwsStar
        (.cat (.chr '"') (.cat (.star false (.cls true (fun c => c = '"')))
          (.cat (.chr '/')
            (.cat (.grp 1 (REplus true (.cls true (fun c => c = '"' || c = '/'))))
              (.cat (.opt false (RElitS ".git"))
                (.cat (.chr '"') (.cat REwsStar (.cat (.chr ',') (.cat REwsStar
                  (.cat (.alt (RElitS "from:") (.cat (.chr '.') (RElitS "upToNextMajor(from:")))
                    (.cat REwsStar (.cat (.chr '"')
                      (.cat (.grp 2 (REplus false (.cls true (fun c => c = '"'))))
                        (.chr '"'))))))))))))))))))

def parsePackageSwift (content : List Char) : List Dep :=
  (reMatchAll swiftPackageRE content).foldl (fun acc c =>
    acc ++ [⟨(getCap c 1).getD [], (getCap c 2).getD [], "swift", "prod"⟩]) []

/-- build.gradle(.kts):
/(?:implementation|api|compile|runtimeOnly|testImplementation)\s*[('"]([^:]+):([^:]+):([^'")\s]+)/g -/
def gradleDepRE : RE :=
  .cat (.alt (RElitS "implementation") (.alt (RElitS "api") (.alt (RElitS "compile")
      (.alt (RElitS "runtimeOnly") (RElitS "testImplementation")))))
    (.cat REwsStar (.cat (.cls false (fun c => c = '(' || c = '\'' || c = '"'))
      (.cat (.grp 1 (REplus false (.cls true (fun c => c = ':')))) (.cat (.chr ':')
        (.cat (.grp 2 (REplus false (.cls true (fun c => c = ':')))) (.cat (.chr ':')
          (.grp 3 (REplus false (.cls true
            (fun c => c = '\'' || c = '"' || c = ')' || isSpaceJS c))))))))))

def parseBuildGradle (content : List Char) : List Dep :=
  (reMatchAll gradleDepRE content).foldl (fun acc c =>
    acc ++ [⟨(getCap c 1).getD [] ++ ':' :: (getCap c 2).getD [], (getCap c 3).getD [],
      "gradle", "prod"⟩]) []

/-- pom.xml:
/<dependency>\s*<groupId>([^<]+)<\/groupId>\s*<artifactId>([^<]+)<\/artifactId>\s*(?:<version>([^<]+)<\/version>)?/g -/
def pomDepRE : RE :=
  .cat (RElitS "<dependency>") (.cat REwsStar
    (.cat (RElitS "<groupId>")
      (.cat (.grp 1 (REplus false (.cls true (fun c => c = '<'))))
        (.cat (RElitS "</groupId>") (.cat REwsStar
          (.cat (RElitS "<artifactId>")
            (.cat (.grp 2 (REplus false (.cls true (fun c => c = '<'))))
              (.cat (RElitS "</artifactId>") (.cat REwsStar
                (.opt false (.cat (RElitS "<version>")
                  (.cat (.grp 3 (REplus false (.cls true (fun c => c = '<'))))
                    (RElitS "</version>")))))))))))))

def parsePomXml (content : List Char) : List Dep :=
  (reMatchAll pomDepRE content).foldl (fun acc c =>
    acc ++ [⟨(getCap c 1).getD [] ++ ':' :: (getCap c 2).getD [],
      (getCap c 3).getD (strL "managed"), "maven", "prod"⟩]) []

/-- yarn.lock: blocks split on /\n(?=[^\s])/ (a newline whose next character
is not whitespace), then /^"?([^@\n]+)@/ and /\n\s+version\s+"([^"]+)"/ per
block. -/
def splitNlBlocksGo : List Char → List Char → List (List Char)
  | cur, [] => [cur.reverse]
  | cur, c :: rest =>
    if c = '\n' then
      match rest with
      | d :: _ =>
        if isSpaceJS d then splitNlBlocksGo ('\n' :: cur) rest
        else cur.reverse :: splitNlBlocksGo [] rest
      | [] => [('\n' :: cur).reverse]
    else splitNlBlocksGo (c :: cur) rest

def yarnNameRE : RE :=
  .cat (.opt false (.chr '"'))
    (.cat (.grp 1 (REplus false (.cls true (fun c => c = '@' || c = '\n')))) (.chr '@'))

def yarnVersionRE : RE :=
  .cat (.chr '\n') (.cat REwsPlus (.cat (RElitS "version") (.cat REwsPlus
    (.cat (.chr '"')
      (.cat (.grp 1 (REplus false (.cls true (fun c => c = '"')))) (.chr '"'))))))

def parseYarnLock (content : List Char) : List Dep :=
  (splitNlBlocksGo [] content).foldl (fun acc block =>
    match reAtStart yarnNameRE block, reSearch yarnVersionRE block with
    | some (_, nc), some (_, _, vc) =>
      acc ++ [⟨(getCap nc 1).getD [], (getCap vc 1).getD [], "npm", "prod"⟩]
    | _, _ => acc) []

/-- version.replace / String(version).replace: the Electron host requires a
string (TypeError otherwise), the extension host coerces. -/
def jsVersionString (coerce : Bool) (version : Json) : Except Unit (List Char) :=
  if coerce then .ok (jsToString version)
  else match version with
    | .str s => .ok s
    | _ => .error ()

/-- devMap?.[name] truthiness, deciding kind dev/prod. -/
def jsIsDevFlag (devO : Option Json) (name : List Char) : Bool :=
  match jsOptChain devO name with
  | .ok v => jsTruthy v
  | .error _ => false

/-- package.json (both hosts): merge dependencies and devDependencies, strip
leading range operators, classify dev by membership in devDependencies.  The
Electron host calls version.replace directly (a TypeError when the version
value is not a string); the extension host wraps it as
String(version).replace, which cannot throw.  The flag selects the host. -/
def parsePackageJsonWith (coerce : Bool) (j : Json) : PRes :=
  match jsField j (strL "dependencies") with
  | .error _ => .error (.typeErr, [])
  | .ok depsO =>
    match jsField j (strL "devDependencies") with
    | .error _ => .error (.typeErr, [])
    | .ok devO =>
      let allDeps := spreadMerge (spreadEntries depsO) (spreadEntries devO)
      foldE (fun acc kv =>
        match jsVersionString coerce kv.2 with
        | .error _ => .error (.typeErr, acc)
        | .ok vs =>
          .ok (acc ++ [⟨kv.1, versionStripRange vs, "npm",
            if jsIsDevFlag devO kv.1 then "dev" else "prod"⟩]))
        allDeps []

/-- composer.json (both hosts): like package.json over require and
require-dev, additionally dropping every name that starts with "php" or
"ext-" before the push (so the version is not even looked at for those). -/
def parseComposerJsonWith (coerce : Bool) (j : Json) : PRes :=
  match jsField j (strL "require") with
  | .error _ => .error (.typeErr, [])
  | .ok reqO =>
    match jsField j (strL "require-dev") with
    | .error _ => .error (.typeErr, [])
    | .ok devO =>
      let allDeps := spreadMerge (spreadEntries reqO) (spreadEntries devO)
      foldE (fun acc kv =>
        if ¬ startsWithL kv.1 (strL "php") ∧ ¬ startsWithL kv.1 (strL "ext-") then
          match jsVersionString coerce kv.2 with
          | .error _ => .error (.typeErr, acc)
          | .ok vs =>
            .ok (acc ++ [⟨kv.1, versionStripRange vs, "composer",
              if jsIsDevFlag devO kv.1 then "dev" else "prod"⟩])
        else .ok acc) allDeps []

/-- Object.keys(x || \x7b\x7d). -/
def jsKeysOrEmpty (o : Option Json) : List (List Char) :=
  (spreadEntries (if jsTruthy o then o else some (.obj []))).map (·.1)

/-- package-lock.json (Electron host only): v2/v3 lockfiles restrict to the
entries one path segment under node_modules/ that are also direct
dependencies of the root manifest; v1 lockfiles take the top-level
dependencies map. -/
def parsePackageLockMain (j : Json) : PRes :=
  match jsField j (strL "packages") with
  | .error _ => .error (.typeErr, [])
  | .ok pkgsO =>
    if jsTruthy pkgsO then
      match jsFieldOpt pkgsO [] with
      | .error _ => .error (.typeErr, [])
      | .ok rootO =>
        let rootPkg : Option Json := if jsTruthy rootO then rootO else some (.obj [])
        match jsFieldOpt rootPkg (strL "dependencies") with
        | .error _ => .error (.typeErr, [])
        | .ok rdepsO =>
          match jsFieldOpt rootPkg (strL "devDependencies") with
          | .error _ => .error (.typeErr, [])
          | .ok rdevO =>
            let directDeps := jsKeysOrEmpty rdepsO ++ jsKeysOrEmpty rdevO
            foldE (fun acc kv =>
              let (pkgPath, pkgInfo) := kv
              if startsWithL pkgPath (strL "node_modules/") ∧
                  ¬ containsSubFrom pkgPath (strL "/node_modules/") 13 then
                let pkgName := replaceFirstSub pkgPath (strL "node_modules/") []
                if directDeps.any (fun k => k = pkgName) then
                  match jsField pkgInfo (strL "version") with
                  | .error _ => .error (.typeErr, acc)
                  | .ok vO =>
                    if jsTruthy vO then
                      let isDev :=
                        match jsOptChain rdevO pkgName with
                        | .ok v => jsTruthy v
                        | .error _ => false
                      .ok (acc ++ [⟨pkgName, jsToStringOpt vO, "npm",
                        if isDev then "dev" else "prod"⟩])
                    else .ok acc
                else .ok acc
              else .ok acc) (spreadEntries pkgsO) []
    else
      match jsField j (strL "dependencies") with
      | .error _ => .error (.typeErr, [])
      | .ok depsO =>
        if jsTruthy depsO then
          foldE (fun acc kv =>
            let (name, info) := kv
            match jsField info (strL "version") with
            | .error _ => .error (.typeErr, acc)
            | .ok vO =>
              if jsTruthy vO then
                let isDev :=
                  match jsField info (strL "dev") with
                  | .ok v => jsTruthy v
                  | .error _ => false
                .ok (acc ++ [⟨name, jsToStringOpt vO, "npm", if isDev then "dev" else "prod"⟩])
              else .ok acc) (spreadEntries depsO) []
        else .ok []

/-- Pipfile.lock (Electron host only): the default and develop maps;
info.version?.replace(/^==/, '') || 'locked'. -/
def parsePipfileLockSection (o : Option Json) (isDev : Bool) (acc : List Dep) : PRes :=
  foldE (fun acc kv =>
    let (name, info) := kv
    match jsField info (strL "version") with
    | .error _ => .error (.typeErr, acc)
    | .ok vO =>
      match vO with
      | none => .ok (acc ++ [⟨name, strL "locked", "pypi", if isDev then "dev" else "prod"⟩])
      | some .null => .ok (acc ++ [⟨name, strL "locked", "pypi", if isDev then "dev" else "prod"⟩])
      | some (.str s) =>
        let stripped := if startsWithL s (strL "==") then s.drop 2 else s
        let v := if stripped = [] then strL "locked" else stripped
        .ok (acc ++ [⟨name, v, "pypi", if isDev then "dev" else "prod"⟩])
      | some _ => .error (.typeErr, acc))
    (spreadEntries (if jsTruthy o then o else some (.obj []))) acc

def parsePipfileLockMain (j : Json) : PRes :=
  match jsField j (strL "default") with
  | .error _ => .error (.typeErr, [])
  | .ok defO =>
    match parsePipfileLockSection defO false [] with
    | .error e => .error e
    | .ok acc =>
      match jsField j (strL "develop") with
      | .error _ => .error (.typeErr, acc)
      | .ok devO => parsePipfileLockSection devO true acc

/-- Maximum manifest size accepted by parseDependencyFile (25 MB); the stat
call before reading is modelled by the character count of the content. -/
def MAX_FILE_SIZE : Nat := 25 * 1024 * 1024

/-- The switch body of parseDependencyFile in src/main-process/main.js, with
the possible exception made explicit.  Recognized names without a case
(setup.py) fall through to the accumulated empty list like unrecognized
names do. -/
def parseBodyMain (fileName content : List Char) : PRes :=
  if fileName = strL "package.json" then
    match jsonParse content with
    | none => .error (.badJson, [])
    | some j => parsePackageJsonWith false j
  else if fileName = strL "package-lock.json" then
    match jsonParse content with
    | none => .error (.badJson, [])
    | some j => parsePackageLockMain j
  else if fileName = strL "yarn.lock" then .ok (parseYarnLock content)
  else if fileName = strL "requirements.txt" then .ok (parseRequirementsTxt content)
  else if fileName = strL "Cargo.toml" then .ok (parseCargoToml content)
  else if fileName = strL "Cargo.lock" then .ok (parseCargoLock content)
  else if fileName = strL "go.mod" then .ok (parseGoMod content)
  else if fileName = strL "go.sum" then .ok (parseGoSum content)
  else if fileName = strL "Gemfile" then .ok (parseDeclLines "gem" "rubygems" content)
  else if fileName = strL "Gemfile.lock" then .ok (parseGemfileLock content)
  else if fileName = strL "Pipfile" then .ok (parsePipfile content)
  else if fileName = strL "Pipfile.lock" then
    match jsonParse content with
    | none => .error (.badJson, [])
    | some j => parsePipfileLockMain j
  else if fileName = strL "pyproject.toml" then .ok (parsePyprojectToml content)
  else if fileName = strL "composer.json" then
    match jsonParse content with
    | none => .error (.badJson, [])
    | some j => parseComposerJsonWith false j
  else if fileName = strL "pubspec.yaml" then .ok (parsePubspecYaml content)
  else if fileName = strL "Podfile" then .ok (parseDeclLines "pod" "cocoapods" content)
  else if fileName = strL "Podfile.lock" then .ok (parsePodfileLock content)
  else if fileName = strL "Package.swift" then .ok (parsePackageSwift content)
  else if fileName = strL "build.gradle" then .ok (parseBuildGradle content)
  else if fileName = strL "build.gradle.kts" then .ok (parseBuildGradle content)
  else if fileName = strL "pom.xml" then .ok (parsePomXml content)
  else .ok []

/-- parseDependencyFile of the Electron host: the oversized-file guard, then
the switch inside try/catch — a thrown exception is caught and the function
falls through to `return dependencies`, the list accumulated so far. -/
def parseDependencyFileMain (fileName content : List Char) : List Dep :=
  if MAX_FILE_SIZE < content.length then []
  else
    match parseBodyMain fileName content with
    | .ok deps => deps
    | .error (_, deps) => deps

/-- The switch body of DependencyScanner.parseDependencyFile in the VS Code
extension: eight formats, String(version) coercion in the JSON formats. -/
def parseBodyExt (fileName content : List Char) : PRes :=
  if fileName = strL "package.json" then
    match jsonParse content with
    | none => .error (.badJson, [])
    | some j => parsePackageJsonWith true j
  else if fileName = strL "requirements.txt" then .ok (parseRequirementsTxt content)
  else if fileName = strL "Cargo.toml" then .ok (parseCargoToml content)
  else if fileName = strL "go.mod" then .ok (parseGoMod content)
  else if fileName = strL "Gemfile" then .ok (parseDeclLines "gem" "rubygems" content)
  else if fileName = strL "composer.json" then
    match jsonParse content with
    | none => .error (.badJson, [])
    | some j => parseComposerJsonWith true j
  else if fileName = strL "pom.xml" then .ok (parsePomXml content)
  else if fileName = strL "build.gradle" then .ok (parseBuildGradle content)
  else .ok []

def parseDependencyFileExt (fileName content : List Char) : List Dep :=
  if MAX_FILE_SIZE < content.length then []
  else
    match parseBodyExt fileName content with
    | .ok deps => deps
    | .error (_, deps) => deps

/-- The fixed table of recognized manifest file names (Electron host; the
extension's table is the sublist without setup.py, build.gradle.kts and
Package.swift). -/
def DEPENDENCY_FILES : List (List Char × String) :=
  [(strL "package.json", "npm"), (strL "package-lock.json", "npm"),
   (strL "yarn.lock", "npm"), (strL "requirements.txt", "pypi"),
   (strL "Pipfile", "pypi"), (strL "Pipfile.lock", "pypi"),
   (strL "pyproject.toml", "pypi"), (strL "setup.py", "pypi"),
   (strL "Cargo.toml", "cargo"), (strL "Cargo.lock", "cargo"),
   (strL "go.mod", "go"), (strL "go.sum", "go"),
   (strL "Gemfile", "rubygems"), (strL "Gemfile.lock", "rubygems"),
   (strL "pom.xml", "maven"), (strL "build.gradle", "gradle"),
   (strL "build.gradle.kts", "gradle"), (strL "composer.json", "composer"),
   (strL "pubspec.yaml", "pub"), (strL "Package.swift", "swift"),
   (strL "Podfile", "cocoapods"), (strL "Podfile.lock", "cocoapods")]

/-- DEPENDENCY_FILES[name] as used by the scanner (the ecosystem tag, or
nothing for unrecognized names; all tags are nonempty so truthiness of the
lookup is its success). -/
def depFileEco (name : List Char) : Option String :=
  (DEPENDENCY_FILES.find? (fun kv => kv.1 = name)).map (·.2)

/-!  The TreeScanner.  The filesystem is an inductive tree; a directory whose
readdir call fails is a `baddir` leaf.  `scanDirF` is scanDir from
src/main-process/main.js / DependencyScanner.scanDir (the two are line for
line the same algorithm); the explicit fuel only bounds recursion depth and
is irrelevant whenever it exceeds maxDepth + 1 (the depth guard fires
first); scanProjectsFolder passes such a fuel. -/

inductive FSEntry where
  | file (name : List Char) (content : List Char)
  | dir (name : List Char) (entries : List FSEntry)
  | baddir (name : List Char)

def FSEntry.nameOf : FSEntry → List Char
  | .file n _ => n
  | .dir n _ => n
  | .baddir n => n

def FSEntry.isDirE : FSEntry → Bool
  | .file _ _ => false
  | .dir _ _ => true
  | .baddir _ => true

def FSEntry.isFileE : FSEntry → Bool
  | .file _ _ => true
  | _ => false

/-- Directories the scanner never descends into. -/
def SKIP_DIRS : List (List Char) :=
  [strL "node_modules", strL ".git", strL "vendor", strL "venv", strL ".venv",
   strL "env", strL "__pycache__", strL "target", strL "build", strL "dist",
   strL ".next", strL ".nuxt", strL ".cache", strL "coverage",
   strL ".nyc_output", strL "bower_components"]

def MAX_FILES_SCANNED : Nat := 10000

def MAX_FOLDERS_SCANNED : Nat := 5000

/-- Code-point lexicographic order, the model of name.localeCompare(name). -/
def lexLE : List Char → List Char → Bool
  | [], _ => true
  | _ :: _, [] => false
  | c :: cs, d :: ds => if c = d then lexLE cs ds else decide (c < d)

/-- The comparator of entries.sort: directories first, then by name. -/
def entryLE (a b : FSEntry) : Bool :=
  if a.isDirE ∧ ¬ b.isDirE then true
  else if ¬ a.isDirE ∧ b.isDirE then false
  else lexLE a.nameOf b.nameOf

def insertLe {α : Type} (le : α → α → Bool) (x : α) : List α → List α
  | [] => [x]
  | y :: ys => if le x y then x :: y :: ys else y :: insertLe le x ys

def sortByLe {α : Type} (le : α → α → Bool) : List α → List α
  | [] => []
  | x :: xs => insertLe le x (sortByLe le xs)

def sortEntries (es : List FSEntry) : List FSEntry := sortByLe entryLE es

/-- The per-scan counters (closure variables of scanProjectsFolder, fields of
DependencyScanner). -/
structure ScanState where
  filesScanned : Nat
  foldersScanned : Nat
  scanLimitReached : Bool
deriving DecidableEq

/-- A package entry of a ManifestFile: the parsed record spread together with
id = name@version and an empty cves list (an any[] attached later by the
UI, modelled as JSON values). -/
structure Pkg where
  name : List Char
  version : List Char
  ecosystem : String
  type : String
  id : List Char
  cves : List Json

structure DepFile where
  fileName : List Char
  filePath : List Char
  ecosystem : String
  packages : List Pkg

inductive FolderNode where
  | mk (id : List Char) (name : List Char) (path : List Char)
      (dependencyFiles : List DepFile) (children : List FolderNode)
      (totalPackages : Nat) (totalProjects : Nat) (isProject : Bool)

def FolderNode.idOf : FolderNode → List Char
  | .mk i _ _ _ _ _ _ _ => i

def FolderNode.dependencyFiles : FolderNode → List DepFile
  | .mk _ _ _ d _ _ _ _ => d

def FolderNode.children : FolderNode → List FolderNode
  | .mk _ _ _ _ c _ _ _ => c

def FolderNode.totalPackages : FolderNode → Nat
  | .mk _ _ _ _ _ tp _ _ => tp

def FolderNode.totalProjects : FolderNode → Nat
  | .mk _ _ _ _ _ _ tp _ => tp

def FolderNode.isProject : FolderNode → Bool
  | .mk _ _ _ _ _ _ _ p => p

def mkManifestFile (dirPath nm : List Char) (eco : String) (content : List Char) : DepFile :=
  { fileName := nm
    filePath := joinPath dirPath nm
    ecosystem := eco
    packages := (parseDependencyFileMain nm content).map (fun dep =>
      { name := dep.name, version := dep.version, ecosystem := dep.ecosystem,
        type := dep.type, id := dep.name ++ '@' :: dep.version, cves := [] }) }

/-- scanDir.  `eo` is the readdir outcome for this directory (none when the
readdir call threw).  Returns the node (or null) and the updated counters. -/
def scanDirF : Nat → List Char → Option (List FSEntry) → Nat → Nat → ScanState →
    Option FolderNode × ScanState
  | 0, _, _, _, _, s => (none, s)
  | f + 1, dirPath, eo, depth, maxDepth, s =>
    if maxDepth < depth then (none, s)
    else
      let s1 : ScanState := { s with foldersScanned := s.foldersScanned + 1 }
      if MAX_FOLDERS_SCANNED < s1.foldersScanned then
        (none, { s1 with scanLimitReached := true })
      else
        match eo with
        | none => (none, s1)
        | some entries =>
          let s2 : ScanState := { s1 with filesScanned := s1.filesScanned + entries.length }
          if MAX_FILES_SCANNED < s2.filesScanned then
            (none, { s2 with scanLimitReached := true })
          else
            let folded := (sortEntries entries).foldl
              (fun (acc : List DepFile × List FolderNode × ScanState) e =>
                let (dfs, chs, st) := acc
                match e with
                | .file nm content =>
                  match depFileEco nm with
                  | some eco => (dfs ++ [mkManifestFile dirPath nm eco content], chs, st)
                  | none => (dfs, chs, st)
                | .dir nm es =>
                  if SKIP_DIRS.any (fun d => d = nm) ∨ startsWithL nm (strL ".") then
                    (dfs, chs, st)
                  else
                    match scanDirF f (joinPath dirPath nm) (some es) (depth + 1) maxDepth st with
                    | (some child, st') => (dfs, chs ++ [child], st')
                    | (none, st') => (dfs, chs, st')
                | .baddir nm =>
                  if SKIP_DIRS.any (fun d => d = nm) ∨ startsWithL nm (strL ".") then
                    (dfs, chs, st)
                  else
                    (dfs, chs, (scanDirF f (joinPath dirPath nm) none (depth + 1) maxDepth st).2))
              ([], [], s2)
            let (depFiles, children, s3) := folded
            let localPackages := depFiles.foldl (fun n df => n + df.packages.length) 0
            let childPackages := children.foldl (fun n c => n + c.totalPackages) 0
            let totalPackages := localPackages + childPackages
            let isProject := decide (0 < depFiles.length)
            let localProjects := if isProject then 1 else 0
            let childProjects := children.foldl (fun n c => n + c.totalProjects) 0
            let totalProjects := localProjects + childProjects
            if depFiles.length = 0 ∧ children.length = 0 then (none, s3)
            else
              (some (.mk dirPath (basenameL dirPath) dirPath depFiles children
                totalPackages totalProjects isProject), s3)

structure ScanResult where
  rootName : List Char
  rootPath : List Char
  tree : Option FolderNode
  totalProjects : Nat
  totalPackages : Nat

/-- scanProjectsFolder: fresh counters, a scan from depth 0 with maxDepth 5,
and the wrapping of the root node.  The fuel maxDepth + 2 exceeds the
recursion depth the guard permits, so the fuel case is unreachable. -/
def scanProjectsFolder (rootPath : List Char) (eo : Option (List FSEntry)) : ScanResult :=
  let maxDepth := 5
  let (tree, _) := scanDirF (maxDepth + 2) rootPath eo 0 maxDepth
    { filesScanned := 0, foldersScanned := 0, scanLimitReached := false }
  match tree with
  | none =>
    { rootName := basenameL rootPath, rootPath := rootPath, tree := none,
      totalProjects := 0, totalPackages := 0 }
  | some t =>
    { rootName := basenameL rootPath, rootPath := rootPath, tree := some t,
      totalProjects := t.totalProjects, totalPackages := t.totalPackages }

/-!  The VulnerabilityClient: src/src/services/nvdService.js and
src/src-extension/services/cveService.ts.  The two differ only in
sanitizeUrl (the Electron host also admits http://) and in the cache
eviction (only the extension has one); everything else is shared.  The
network is an injected outcome; a call's clock reading is an injected
instant. -/

def MAX_CVE_ID_LENGTH : Nat := 30

def MAX_DESCRIPTION_LENGTH : Nat := 5000

def MAX_URL_LENGTH : Nat := 2048

def CACHE_TTL : Int := 5 * 60 * 1000

def MAX_CACHE_SIZE : Nat := 500

def BATCH_SIZE : Nat := 5

/-- The control characters stripped by sanitizeString:
[\x00-\x08\x0B\x0C\x0E-\x1F\x7F] (tab, newline and carriage return stay). -/
def isStrippedCtrl (c : Char) : Bool :=
  c.toNat ≤ 8 || c.toNat = 11 || c.toNat = 12 ||
  (14 ≤ c.toNat && c.toNat ≤ 31) || c.toNat = 127

/-- sanitizeString(str, maxLength): non-strings become "", control
characters are stripped, overlong values are truncated with an ellipsis
marker. -/
def sanitizeStringJ (v : Option Json) (maxLength : Nat) : List Char :=
  match v with
  | some (.str s) =>
    let sanitized := s.filter (fun c => ¬ isStrippedCtrl c)
    if maxLength < sanitized.length then sanitized.take maxLength ++ strL "..."
    else sanitized
  | _ => []

/-- sanitizeUrl of the extension host: https:// only. -/
def sanitizeUrlTs (v : Option Json) : List Char :=
  match v with
  | some (.str s) =>
    let trimmed := trimJS s
    if MAX_URL_LENGTH < trimmed.length then []
    else if ¬ startsWithL trimmed (strL "https://") then []
    else trimmed
  | _ => []

/-- sanitizeUrl of the Electron host: http:// and https://. -/
def sanitizeUrlJs (v : Option Json) : List Char :=
  match v with
  | some (.str s) =>
    let trimmed := trimJS s
    if MAX_URL_LENGTH < trimmed.length then []
    else if ¬ (startsWithL trimmed (strL "https://") ∨ startsWithL trimmed (strL "http://")) then []
    else trimmed
  | _ => []

/-- /^CVE-\d{4}-\d{4,}$/ -/
def cveIdRE : RE :=
  .cat (RElitS "CVE-") (.cat (.cls false isDigitCh) (.cat (.cls false isDigitCh)
    (.cat (.cls false isDigitCh) (.cat (.cls false isDigitCh) (.cat (.chr '-')
      (.cat (.cls false isDigitCh) (.cat (.cls false isDigitCh)
        (.cat (.cls false isDigitCh) (.cat (.cls false isDigitCh)
          (.cat (.star false (.cls false isDigitCh)) .eos))))))))))

def cveIdTest (s : List Char) : Bool := (reAtStart cveIdRE s).isSome

/-- The distinguishable validation failures of validateNVDResponse (the last
one is the TypeError a null array element causes inside the loop). -/
inductive VErr where
  | notObject
  | vulnsNotArray
  | missingCveObject
  | missingCveId
  | badIdFormat
  | idTooLong
  | accessError
deriving DecidableEq

/-- typeof v === 'object' (true for objects, arrays and null; false for the
other primitives and undefined). -/
def typeofIsObject : Option Json → Bool
  | some (.obj _) => true
  | some (.arr _) => true
  | some .null => true
  | _ => false

/-- One iteration of the validation loop. -/
def validateItem (vuln : Json) : Except VErr Unit :=
  match jsField vuln (strL "cve") with
  | .error _ => .error .accessError
  | .ok cveO =>
    if ¬ (jsTruthy cveO ∧ typeofIsObject cveO = true) then .error .missingCveObject
    else
      match jsFieldOpt cveO (strL "id") with
      | .error _ => .error .accessError
      | .ok idO =>
        match idO with
        | some (.str s) =>
          if s = [] then .error .missingCveId
          else if ¬ cveIdTest s then .error .badIdFormat
          else if MAX_CVE_ID_LENGTH < s.length then .error .idTooLong
          else .ok ()
        | _ => .error .missingCveId

def validateItems : List Json → Except VErr Unit
  | [] => .ok ()
  | v :: vs =>
    match validateItem v with
    | .error e => .error e
    | .ok _ => validateItems vs

/-- validateNVDResponse: must be object-like (arrays pass the typeof check);
an absent vulnerabilities field is replaced by an empty array via spread; a
present non-array fails; every element must pass validateItem. -/
def validateNVDResponse (data : Json) : Except VErr Json :=
  if ¬ (data.truthy ∧ typeofIsObject (some data) = true) then .error .notObject
  else
    match jsField data (strL "vulnerabilities") with
    | .error _ => .error .accessError
    | .ok vO =>
      match vO with
      | none => .ok (.obj (assignField (spreadEntries (some data)) (strL "vulnerabilities") (.arr [])))
      | some (.arr items) =>
        match validateItems items with
        | .error e => .error e
        | .ok _ => .ok data
      | some _ => .error .vulnsNotArray

/-- parseCVSSScore: prefer 3.1, then 3.0, then 2.0 with the fixed severity
thresholds; returns (score, severity, version) as raw JS values. -/
def parseCVSSScore (cve : Option Json) :
    Except JsErr (Option Json × Option Json × Option Json) := do
  let metricsO ← jsFieldOpt cve (strL "metrics")
  let metrics : Option Json := if jsTruthy metricsO then metricsO else some (.obj [])
  let v31 ← jsFieldOpt metrics (strL "cvssMetricV31")
  if jsLenPos v31 then
    let m0 ← jsAt v31 0
    let cvssData ← jsFieldOpt m0 (strL "cvssData")
    let score ← jsFieldOpt cvssData (strL "baseScore")
    let severity ← jsFieldOpt cvssData (strL "baseSeverity")
    return (score, severity, some (.str (strL "3.1")))
  else
    let v30 ← jsFieldOpt metrics (strL "cvssMetricV30")
    if jsLenPos v30 then
      let m0 ← jsAt v30 0
      let cvssData ← jsFieldOpt m0 (strL "cvssData")
      let score ← jsFieldOpt cvssData (strL "baseScore")
      let severity ← jsFieldOpt cvssData (strL "baseSeverity")
      return (score, severity, some (.str (strL "3.0")))
    else
      let v2 ← jsFieldOpt metrics (strL "cvssMetricV2")
      if jsLenPos v2 then
        let m0 ← jsAt v2 0
        let cvssData ← jsFieldOpt m0 (strL "cvssData")
        let score ← jsFieldOpt cvssData (strL "baseScore")
        let severity :=
          if jsGE score 7 then strL "HIGH"
          else if jsGE score 4 then strL "MEDIUM"
          else strL "LOW"
        return (score, some (.str severity), some (.str (strL "2.0")))
      else
        return (some .null, some (.str (strL "NONE")), some .null)

/-- descriptions.find(d => d.lang === 'en'); the callback's member access
throws on a null element. -/
def findLangEn : List Json → Except JsErr (Option Json)
  | [] => .ok none
  | d :: ds => do
    let lv ← jsField d (strL "lang")
    if jsStrictEqStr lv (strL "en") then return (some d) else findLangEn ds

/-- The cpeMatch loop body: match.vulnerable && typeof match.criteria ===
'string' pushes the sanitized criteria. -/
def collectCpeMatches : List Json → Except JsErr (List (List Char))
  | [] => .ok []
  | m :: ms => do
    let vuln ← jsField m (strL "vulnerable")
    let rest ← collectCpeMatches ms
    if jsTruthy vuln then
      let crit ← jsField m (strL "criteria")
      match crit with
      | some (.str _) => return sanitizeStringJ crit 500 :: rest
      | _ => return rest
    else return rest

/-- x?.forEach(...) over a possibly-absent array: null/undefined skips, a
non-array non-null value is a call of undefined (TypeError). -/
def forEachArr (v : Option Json) : Except JsErr (List Json) :=
  match v with
  | none => .ok []
  | some .null => .ok []
  | some (.arr xs) => .ok xs
  | some _ => .error .typeError

def collectNodes : List Json → Except JsErr (List (List Char))
  | [] => .ok []
  | n :: ns => do
    let cm ← jsField n (strL "cpeMatch")
    let ms ← forEachArr cm
    let here ← collectCpeMatches ms
    let rest ← collectNodes ns
    return here ++ rest

def collectConfigs : List Json → Except JsErr (List (List Char))
  | [] => .ok []
  | cfg :: cfgs => do
    let nodesO ← jsField cfg (strL "nodes")
    let ns ← forEachArr nodesO
    let here ← collectNodes ns
    let rest ← collectConfigs cfgs
    return here ++ rest

/-- encodeURIComponent: unreserved characters stay, everything else becomes
percent-encoded UTF-8 bytes. -/
def isUnreservedURI (c : Char) : Bool :=
  ('a' ≤ c && c ≤ 'z') || ('A' ≤ c && c ≤ 'Z') || isDigitCh c ||
  c = '-' || c = '_' || c = '.' || c = '!' || c = '~' || c = '*' ||
  c = '\'' || c = '(' || c = ')'

def hexDigitCh (n : Nat) : Char :=
  if n < 10 then Char.ofNat ('0'.toNat + n) else Char.ofNat ('A'.toNat + n - 10)

def utf8Bytes (c : Char) : List Nat :=
  let n := c.toNat
  if n < 0x80 then [n]
  else if n < 0x800 then [0xc0 + n / 64, 0x80 + n % 64]
  else if n < 0x10000 then [0xe0 + n / 4096, 0x80 + (n / 64) % 64, 0x80 + n % 64]
  else [0xf0 + n / 262144, 0x80 + (n / 4096) % 64, 0x80 + (n / 64) % 64, 0x80 + n % 64]

def encodeURIComp (s : List Char) : List Char :=
  s.flatMap (fun c =>
    if isUnreservedURI c then [c]
    else (utf8Bytes c).flatMap (fun b => ['%', hexDigitCh (b / 16), hexDigitCh (b % 16)]))

/-- One reference record; only the url field matters downstream (the
Electron host also spreads the original reference fields through). -/
structure RefRec where
  url : List Char
deriving DecidableEq

/-- (cve.references || []).slice(0, 5).map(ref => \x7b..., url:
sanitizeUrl(ref.url)\x7d).filter(ref => ref.url) -/
def buildRefs (san : Option Json → List Char) : List Json → Except JsErr (List RefRec)
  | [] => .ok []
  | r :: rs => do
    let u ← jsField r (strL "url")
    let rest ← buildRefs san rs
    let su := san u
    if su ≠ [] then return ⟨su⟩ :: rest else return rest

/-- Array expected: .find/.forEach/.map on a non-array value is a call of a
non-function (TypeError). -/
def arrOrThrow (v : Option Json) : Except JsErr (List Json) :=
  match v with
  | some (.arr xs) => .ok xs
  | _ => .error .typeError

/-- A VulnerabilityRecord as parseCVE builds it (field values are the raw JS
values; the record is immutable after creation). -/
structure CVERec where
  id : Option Json
  description : List Char
  score : Option Json
  severity : Option Json
  cvssVersion : Option Json
  published : Option Json
  lastModified : Option Json
  affectedProducts : List (List Char)
  references : List RefRec
  url : List Char

/-- parseCVE, parameterized by the host's sanitizeUrl. -/
def parseCVE (san : Option Json → List Char) (item : Json) : Except JsErr CVERec := do
  let cve ← jsField item (strL "cve")
  let cvss ← parseCVSSScore cve
  let descO ← jsFieldOpt cve (strL "descriptions")
  let descriptions : Option Json := if jsTruthy descO then descO else some (.arr [])
  let ds ← arrOrThrow descriptions
  let englishDesc ← findLangEn ds
  let ev ← jsOptChain englishDesc (strL "value")
  let d0 ← jsAt (some (.arr ds)) 0
  let d0v ← jsOptChain d0 (strL "value")
  let rawDescription : Option Json :=
    if jsTruthy ev then ev
    else if jsTruthy d0v then d0v
    else some (.str (strL "No description available"))
  let description := sanitizeStringJ rawDescription MAX_DESCRIPTION_LENGTH
  let cfgO ← jsFieldOpt cve (strL "configurations")
  let configurations : Option Json := if jsTruthy cfgO then cfgO else some (.arr [])
  let cfgs ← arrOrThrow configurations
  let affectedProducts ← collectConfigs cfgs
  let refsO ← jsFieldOpt cve (strL "references")
  let refsJ : Option Json := if jsTruthy refsO then refsO else some (.arr [])
  let refs ← arrOrThrow refsJ
  let sanitizedRefs ← buildRefs san (refs.take 5)
  let idO ← jsFieldOpt cve (strL "id")
  let published ← jsFieldOpt cve (strL "published")
  let lastModified ← jsFieldOpt cve (strL "lastModified")
  return { id := idO, description := description, score := cvss.1,
           severity := cvss.2.1, cvssVersion := cvss.2.2,
           published := published, lastModified := lastModified,
           affectedProducts := affectedProducts.take 50,
           references := sanitizedRefs,
           url := strL "https://nvd.nist.gov/vuln/detail/" ++ encodeURIComp (jsToStringOpt idO) }

/-!  Cache and fetch machinery. -/

structure CacheEntry where
  data : List CVERec
  timestamp : Int

instance : Inhabited CacheEntry := ⟨⟨[], 0⟩⟩

/-- The process-wide Map, kept in insertion order (Map.set on an existing
key updates the value in place; a new key is appended). -/
abbrev Cache := List (List Char × CacheEntry)

def cacheLookup (c : Cache) (k : List Char) : Option CacheEntry :=
  (c.find? (fun kv => kv.1 = k)).map (·.2)

def mapSet (c : Cache) (k : List Char) (e : CacheEntry) : Cache :=
  if c.any (fun kv => kv.1 = k) then
    c.map (fun kv => if kv.1 = k then (k, e) else kv)
  else c ++ [(k, e)]

/-- getCached (identical in both hosts): a hit needs a stored entry younger
than the TTL at the reading instant. -/
def getCached (c : Cache) (now : Int) (key : List Char) : Option (List CVERec) :=
  match cacheLookup c key with
  | some e => if now - e.timestamp < CACHE_TTL then some e.data else none
  | none => none

/-- setCache of the extension host: when the map is full, first delete
Math.max(1, floor(500 * 0.1)) = 50 keys from the front of the iteration
(= insertion) order, then store. -/
def setCacheTs (c : Cache) (key : List Char) (data : List CVERec) (now : Int) : Cache :=
  let c' :=
    if MAX_CACHE_SIZE ≤ c.length then c.drop (max 1 (MAX_CACHE_SIZE / 10))
    else c
  mapSet c' key ⟨data, now⟩

/-- setCache of the Electron host: store unconditionally, no eviction. -/
def setCacheJs (c : Cache) (key : List Char) (data : List CVERec) (now : Int) : Cache :=
  mapSet c key ⟨data, now⟩

/-- What the network and JSON layer can fail with before validation even runs. -/
inductive NetErr where
  | rateLimited
  | apiError
  | invalidJson
  | timeout
deriving DecidableEq

/-- The failure taxonomy a keyword fetch surfaces. -/
inductive FetchFail where
  | net (e : NetErr)
  | validation (e : VErr)
  | parse (e : JsErr)
deriving DecidableEq

def mapParseCVE (san : Option Json → List Char) : List Json → Except JsErr (List CVERec)
  | [] => .ok []
  | x :: xs => do
    let c ← parseCVE san x
    let rest ← mapParseCVE san xs
    return c :: rest

structure FetchOut where
  result : Except FetchFail (List CVERec)
  cache : Cache
  requests : Nat

/-- One call of fetchCVEsForKeyword (extension host; the Electron host is
the same machine with its own sanitizeUrl): a fresh cache hit returns
immediately with no request; a miss spends exactly one request on the
injected remote outcome, validates, parses, and stores a success. -/
def fetchCVEsForKeywordStep (cache : Cache) (now : Int) (keyword : List Char)
    (rpp : Nat) (remote : Except NetErr Json) : FetchOut :=
  let cacheKey := keyword ++ '-' :: natDigits rpp
  match getCached cache now cacheKey with
  | some data => ⟨.ok data, cache, 0⟩
  | none =>
    match remote with
    | .error e => ⟨.error (.net e), cache, 1⟩
    | .ok raw =>
      match validateNVDResponse raw with
      | .error e => ⟨.error (.validation e), cache, 1⟩
      | .ok data =>
        let vulnsO := match jsField data (strL "vulnerabilities") with
          | .ok v => v
          | .error _ => none
        let items := match (if jsTruthy vulnsO then vulnsO else some (.arr [])) with
          | some (.arr xs) => xs
          | _ => []
        match mapParseCVE sanitizeUrlTs items with
        | .error e => ⟨.error (.parse e), cache, 1⟩
        | .ok cves => ⟨.ok cves, setCacheTs cache cacheKey cves now, 1⟩

/-!  fetchCVEsForProducts.  The per-product keyword fetch is injected as a
function from the keyword to its outcome (within one call the cache makes
repeated fetches of one keyword agree, and each batch's results are
collected in batch order by Promise.all).  The loop structure — slices of 5,
a delay before every batch but the first, per-product failures degrading to
an empty list, first-occurrence dedup tagging matchedProduct, and the final
sort by descending publication date — is carried over literally; the
returned event list records the delays and batches the loop issues. -/

structure Product where
  name : List Char
  keyword : List Char

/-- product.keyword || product.name. -/
def keywordOf (p : Product) : List Char := if p.keyword ≠ [] then p.keyword else p.name

inductive BatchEv (α : Type) where
  | delay
  | batch (items : List α)
deriving DecidableEq

structure TaggedCVE where
  cve : CVERec
  matchedProduct : List Char

/-- SameValueZero as Set.has applies it to vulnerability ids: primitive
values compare by value; two (distinct) parsed objects are distinct
references and never equal.  In the real pipeline every id is a validated
string. -/
def idEq : Option Json → Option Json → Bool
  | none, none => true
  | some .null, some .null => true
  | some (.bool a), some (.bool b) => a = b
  | some (.num m1 e1), some (.num m2 e2) => numEqv m1 e1 m2 e2
  | some (.str a), some (.str b) => a = b
  | _, _ => false

/-- The dedup push: an unseen id is recorded and the record is appended with
matchedProduct set to the originating product's name. -/
def dedupStep (pname : List Char) (st : List (Option Json) × List TaggedCVE)
    (cve : CVERec) : List (Option Json) × List TaggedCVE :=
  let (seen, acc) := st
  if seen.any (fun s => idEq s cve.id) then st
  else (cve.id :: seen, acc ++ [⟨cve, pname⟩])

/-- The catch around one product's fetch: failure degrades to []. -/
def catchEmpty (r : Except FetchFail (List CVERec)) : List CVERec :=
  match r with
  | .ok l => l
  | .error _ => []

def processProduct (fetch : List Char → Except FetchFail (List CVERec))
    (st : List (Option Json) × List TaggedCVE) (p : Product) :
    List (Option Json) × List TaggedCVE :=
  (catchEmpty (fetch (keywordOf p))).foldl (dedupStep p.name) st

/-- The batch loop; the fuel is spent one unit per batch and never runs out
for the fuel fetchCVEsForProducts passes. -/
def runBatchesF (fetch : List Char → Except FetchFail (List CVERec)) :
    Nat → List Product → Bool → (List (Option Json) × List TaggedCVE) →
    List (BatchEv Product) × (List (Option Json) × List TaggedCVE)
  | 0, _, _, st => ([], st)
  | f + 1, products, first, st =>
    match products with
    | [] => ([], st)
    | _ :: _ =>
      let evs := (if first then [] else [BatchEv.delay]) ++ [BatchEv.batch (products.take BATCH_SIZE)]
      let st' := (products.take BATCH_SIZE).foldl (fun s p => processProduct fetch s p) st
      let (evs2, stF) := runBatchesF fetch f (products.drop BATCH_SIZE) false st'
      (evs ++ evs2, stF)

/-- Numeric key of new Date(published) used by the final comparator:
monotone in the timestamp for the ISO-8601 strings the remote serves (its
digits read as one number); non-strings rank lowest. -/
def dateNum : Option Json → Nat
  | some (.str s) => digitsToNatL (s.filter isDigitCh)
  | _ => 0

/-- The descending-publication comparator (a, b) => new Date(b.published) -
new Date(a.published), as an ordering relation. -/
def pubGE (a b : TaggedCVE) : Prop := dateNum b.cve.published ≤ dateNum a.cve.published

instance : DecidableRel pubGE := fun a b => Nat.decLe (dateNum b.cve.published) (dateNum a.cve.published)

instance : IsTotal TaggedCVE pubGE := ⟨fun a b => Nat.le_total (dateNum b.cve.published) (dateNum a.cve.published)⟩

instance : IsTrans TaggedCVE pubGE := ⟨fun _ _ _ h1 h2 => Nat.le_trans h2 h1⟩

/-- allCVEs.sort(...): a sorted permutation of the collected list (modelled
by insertion sort). -/
def sortPubDesc (l : List TaggedCVE) : List TaggedCVE := List.insertionSort pubGE l

/-- fetchCVEsForProducts: empty input returns immediately; otherwise the
batch loop runs and the result is sorted newest first.  The first component
is the trace of delays and batches. -/
def fetchCVEsForProducts (fetch : List Char → Except FetchFail (List CVERec))
    (products : List Product) : List (BatchEv Product) × List TaggedCVE :=
  match products with
  | [] => ([], [])
  | _ :: _ =>
    let (evs, st) := runBatchesF fetch (products.length + 1) products true ([], [])
    (evs, sortPubDesc st.2)

/-!  The cache over a whole session: every write the extension service ever
performs goes through setCacheTs (a keyword fetch) and clearCache empties
the map.  The op list makes "after any sequence of fetches" a statement. -/

inductive CacheOp where
  | fetchOp (now : Int) (keyword : List Char) (rpp : Nat) (remote : Except NetErr Json)
  | clearOp

def applyCacheOp (c : Cache) : CacheOp → Cache
  | .fetchOp now k rpp remote => (fetchCVEsForKeywordStep c now k rpp remote).cache
  | .clearOp => []

def runCacheOps (ops : List CacheOp) : Cache := ops.foldl applyCacheOp []

/-- The Electron host's cache after n keyword fetches of pairwise distinct
keys (the counterexample generator for the unbounded cache: key i is i
repetitions of 'a', with some fixed data). -/
def jsCacheAfter : Nat → Cache
  | 0 => []
  | n + 1 => setCacheJs (jsCacheAfter n) (List.replicate n 'a') [] 0

/-!  Concrete inputs for the validation-failure scenario. -/

def c6Item : Json := .obj [(strL "cve", .obj [(strL "id", .str (strL "NOT-A-CVE"))])]

def c6Data : Json := .obj [(strL "vulnerabilities", Json.arr [c6Item])]

def c6RecB : CVERec :=
  ⟨some (.str (strL "CVE-2024-12345")), strL "d", none, none, none,
   some (.str (strL "2024-01-02T00:00:00.000")), none, [], [], strL "u"⟩

def c6PA : Product := ⟨strL "alpha", []⟩

def c6PB : Product := ⟨strL "beta", []⟩

def c6Fetch : List Char → Except FetchFail (List CVERec) :=
  fun k => if k = strL "alpha" then .error (.net .timeout) else .ok [c6RecB]

/-- The spec's recursive totals invariant over scan trees. -/
inductive NodeInv : FolderNode → Prop where
  | intro (i n p : List Char) (dfs : List DepFile) (chs : List FolderNode)
      (tp tpr : Nat) (isP : Bool)
      (hp : tp = (dfs.map (fun df => df.packages.length)).sum
             + (chs.map FolderNode.totalPackages).sum)
      (hq : tpr = (if 0 < dfs.length then 1 else 0)
             + (chs.map FolderNode.totalProjects).sum)
      (hc : ∀ c ∈ chs, NodeInv c) :
      NodeInv (.mk i n p dfs chs tp tpr isP)

def c2FS : List FSEntry :=
  [FSEntry.file (strL "package.json")
     (strL "\x7b\"dependencies\":\x7b\"lodash\":\"^4.17.21\"\x7d\x7d")]

def c9FS : List FSEntry := [FSEntry.file (strL "a.txt") [], FSEntry.file (strL "b.txt") []]

/-- The recognized names whose Electron parser begins with JSON.parse. -/
def isJsonFormatMain (n : List Char) : Bool :=
  n = strL "package.json" || n = strL "package-lock.json" ||
  n = strL "Pipfile.lock" || n = strL "composer.json"

/-- The recognized names whose extension parser begins with JSON.parse. -/
def isJsonFormatExt (n : List Char) : Bool :=
  n = strL "package.json" || n = strL "composer.json"

def c1Content : List Char := strL "\x7b\"dependencies\":\x7b\"a\":\"1.0.0\",\"b\":5\x7d\x7d"

/-- The invariant the dedup loop maintains: `pre` is the list of products
already processed.  Seen ids and collected records are string-id, mutually
covering, pairwise id-distinct; every collected record is tagged with the
first product of the whole run whose fetch carries its id; every id a
processed product's fetch carries is in the seen set. -/
def DedupInv (fetch : List Char → Except FetchFail (List CVERec))
    (products : List Product) (pre : List Product)
    (st : List (Option Json) × List TaggedCVE) : Prop :=
  (∀ x ∈ st.1, ∃ s, x = some (Json.str s))
  ∧ (∀ t ∈ st.2, ∃ s, t.cve.id = some (Json.str s))
  ∧ (∀ t ∈ st.2, t.cve.id ∈ st.1)
  ∧ (∀ x ∈ st.1, ∃ t ∈ st.2, t.cve.id = x)
  ∧ st.2.Pairwise (fun a b => idEq a.cve.id b.cve.id = false)
  ∧ (∀ t ∈ st.2, ∃ p, products.find? (fun p =>
         (catchEmpty (fetch (keywordOf p))).any (fun r => idEq r.id t.cve.id)) = some p
       ∧ t.matchedProduct = p.name)
  ∧ (∀ p ∈ pre, ∀ r ∈ catchEmpty (fetch (keywordOf p)), r.id ∈ st.1)

def c3R1 : CVERec :=
  ⟨some (.str (strL "CVE-2024-0001")), strL "d1", none, none, none,
   some (.str (strL "2024-03-01")), none, [], [], strL "u"⟩

def c3R2 : CVERec :=
  ⟨some (.str (strL "CVE-2024-0001")), strL "d2", none, none, none,
   some (.str (strL "2024-05-01")), none, [], [], strL "u"⟩

def c3R3 : CVERec :=
  ⟨some (.str (strL "CVE-2024-0002")), strL "d3", none, none, none,
   some (.str (strL "2024-04-01")), none, [], [], strL "u"⟩

def c3PA : Product := ⟨strL "alpha", []⟩

def c3PB : Product := ⟨strL "beta", []⟩

def c3Fetch : List Char → Except FetchFail (List CVERec) :=
  fun k => if k = strL "alpha" then .ok [c3R1] else .ok [c3R2, c3R3]

/-!  Shared proof infrastructure for the parser claims. -/

/-- A push-loop invariant: a per-record property that every push respects
holds of the accumulated list on both the normal and the thrown exit. -/
theorem foldE_inv {α : Type} (P : Dep → Prop) (step : List Dep → α → PRes)
    (hstep : ∀ acc x, (∀ d ∈ acc, P d) →
      (match step acc x with
       | .ok acc' => ∀ d ∈ acc', P d
       | .error (_, acc') => ∀ d ∈ acc', P d)) :
    ∀ xs acc, (∀ d ∈ acc, P d) →
      (match foldE step xs acc with
       | .ok l => ∀ d ∈ l, P d
       | .error (_, l) => ∀ d ∈ l, P d) := by
  intro xs
  induction xs with
  | nil => intro acc hacc; simpa [foldE] using hacc
  | cons x xs ih =>
    intro acc hacc
    have h1 := hstep acc x hacc
    simp only [foldE]
    cases hs : step acc x with
    | error e =>
      rw [hs] at h1
      cases e with
      | mk k l => simpa using h1
    | ok acc' =>
      rw [hs] at h1
      exact ih acc' h1

/-- Every record parseComposerJsonWith ever pushes passes the php/ext-
filter, on both the normal and the thrown exit. -/
theorem parseComposerJsonWith_filter (coerce : Bool) (j : Json) :
    (match parseComposerJsonWith coerce j with
     | .ok l => ∀ d ∈ l, startsWithL d.name (strL "php") = false ∧ startsWithL d.name (strL "ext-") = false
     | .error (_, l) => ∀ d ∈ l, startsWithL d.name (strL "php") = false ∧ startsWithL d.name (strL "ext-") = false) := by
  unfold parseComposerJsonWith
  cases hreq : jsField j (strL "require") with
  | error e => simp
  | ok reqO =>
    cases hdev : jsField j (strL "require-dev") with
    | error e => simp
    | ok devO =>
      simp only []
      refine foldE_inv _ _ ?_ _ [] (by simp)
      intro acc kv hacc
      by_cases hg : ¬ startsWithL kv.1 (strL "php") = true ∧ ¬ startsWithL kv.1 (strL "ext-") = true
      · rw [if_pos hg]
        cases hv : jsVersionString coerce kv.2 with
        | error u => exact hacc
        | ok vs =>
          intro d hd
          rcases List.mem_append.mp hd with h | h
          · exact hacc d h
          · rcases List.mem_singleton.mp h with rfl
            refine ⟨?_, ?_⟩ <;> simp_all [Bool.not_eq_true]
      · rw [if_neg hg]
        exact hacc

theorem composer_main_filter_carrier (c : List Char) (d : Dep) :
    d ∈ parseDependencyFileMain (strL "composer.json") c →
    startsWithL d.name (strL "php") = false ∧ startsWithL d.name (strL "ext-") = false := by
  intro hd
  unfold parseDependencyFileMain at hd
  split at hd
  · simp at hd
  · cases hp : jsonParse c with
    | none =>
      have hb : parseBodyMain (strL "composer.json") c = .error (.badJson, []) := by
        have : parseBodyMain (strL "composer.json") c =
            (match jsonParse c with
             | none => .error (.badJson, [])
             | some j => parseComposerJsonWith false j) := rfl
        rw [this, hp]
      rw [hb] at hd
      simp at hd
    | some j =>
      have hb : parseBodyMain (strL "composer.json") c = parseComposerJsonWith false j := by
        have h0 : parseBodyMain (strL "composer.json") c =
            (match jsonParse c with
             | none => .error (.badJson, [])
             | some j => parseComposerJsonWith false j) := rfl
        rw [h0, hp]
      rw [hb] at hd
      have hinv := parseComposerJsonWith_filter false j
      cases hres : parseComposerJsonWith false j with
      | ok l => rw [hres] at hd hinv; exact hinv d hd
      | error e =>
        rw [hres] at hd hinv
        cases e with
        | mk k l => exact hinv d hd

theorem composer_ext_filter_carrier (c : List Char) (d : Dep) :
    d ∈ parseDependencyFileExt (strL "composer.json") c →
    startsWithL d.name (strL "php") = false ∧ startsWithL d.name (strL "ext-") = false := by
  intro hd
  unfold parseDependencyFileExt at hd
  split at hd
  · simp at hd
  · cases hp : jsonParse c with
    | none =>
      have hb : parseBodyExt (strL "composer.json") c = .error (.badJson, []) := by
        have h0 : parseBodyExt (strL "composer.json") c =
            (match jsonParse c with
             | none => .error (.badJson, [])
             | some j => parseComposerJsonWith true j) := rfl
        rw [h0, hp]
      rw [hb] at hd
      simp at hd
    | some j =>
      have hb : parseBodyExt (strL "composer.json") c = parseComposerJsonWith true j := by
        have h0 : parseBodyExt (strL "composer.json") c =
            (match jsonParse c with
             | none => .error (.badJson, [])
             | some j => parseComposerJsonWith true j) := rfl
        rw [h0, hp]
      rw [hb] at hd
      have hinv := parseComposerJsonWith_filter true j
      cases hres : parseComposerJsonWith true j with
      | ok l => rw [hres] at hd hinv; exact hinv d hd
      | error e =>
        rw [hres] at hd hinv
        cases e with
        | mk k l => exact hinv d hd

/-- C10: for every composer.json content, parsing excludes every dependency
whose name starts with "php" or with "ext-": no record with such a name ever
appears in the output of either host's parser, even when the name is an
ordinary package name that merely begins with "php" (such as a phpunit
package). -/
theorem composer_excludes_php_and_ext (c : List Char) (d : Dep) :
    (d ∈ parseDependencyFileMain (strL "composer.json") c →
      startsWithL d.name (strL "php") = false ∧ startsWithL d.name (strL "ext-") = false) ∧
    (d ∈ parseDependencyFileExt (strL "composer.json") c →
      startsWithL d.name (strL "php") = false ∧ startsWithL d.name (strL "ext-") = false) :=
  ⟨composer_main_filter_carrier c d, composer_ext_filter_carrier c d⟩

/-- C10 witness: a manifest declaring monolog/monolog, phpunit/phpunit,
ext-json and php yields exactly the monolog record, and the theorem applies
to it. -/
theorem composer_excludes_php_and_ext_witness :
    parseDependencyFileMain (strL "composer.json")
      (strL "\x7b\"require\":\x7b\"monolog/monolog\":\"^2.0\",\"php\":\">=7.4\",\"ext-json\":\"*\"\x7d,\"require-dev\":\x7b\"phpunit/phpunit\":\"^9.5\"\x7d\x7d") =
      [⟨strL "monolog/monolog", strL "2.0", "composer", "prod"⟩] ∧
    (startsWithL (strL "monolog/monolog") (strL "php") = false ∧
      startsWithL (strL "monolog/monolog") (strL "ext-") = false) :=
  ⟨by decide,
   (composer_excludes_php_and_ext
      (strL "\x7b\"require\":\x7b\"monolog/monolog\":\"^2.0\",\"php\":\">=7.4\",\"ext-json\":\"*\"\x7d,\"require-dev\":\x7b\"phpunit/phpunit\":\"^9.5\"\x7d\x7d")
      ⟨strL "monolog/monolog", strL "2.0", "composer", "prod"⟩).1 (by decide)⟩

/-!  C7: cache boundedness. -/

/-!  C7 lemmas. -/

theorem mapSet_length_le (c : Cache) (k : List Char) (e : CacheEntry) :
    (mapSet c k e).length ≤ c.length + 1 := by
  unfold mapSet
  split
  · simp
  · simp

theorem setCacheTs_bound (c : Cache) (k : List Char) (d : List CVERec) (t : Int)
    (h : c.length ≤ MAX_CACHE_SIZE) : (setCacheTs c k d t).length ≤ MAX_CACHE_SIZE := by
  unfold setCacheTs
  split
  · calc (mapSet (c.drop (max 1 (MAX_CACHE_SIZE / 10))) k ⟨d, t⟩).length
        ≤ (c.drop (max 1 (MAX_CACHE_SIZE / 10))).length + 1 := mapSet_length_le _ _ _
      _ ≤ MAX_CACHE_SIZE := by
        simp only [List.length_drop]
        unfold MAX_CACHE_SIZE at *
        omega
  · calc (mapSet c k ⟨d, t⟩).length ≤ c.length + 1 := mapSet_length_le _ _ _
      _ ≤ MAX_CACHE_SIZE := by
        rename_i hlt
        unfold MAX_CACHE_SIZE at *
        omega

theorem fetchStep_cache_bound (c : Cache) (now : Int) (k : List Char) (rpp : Nat)
    (remote : Except NetErr Json) (h : c.length ≤ MAX_CACHE_SIZE) :
    (fetchCVEsForKeywordStep c now k rpp remote).cache.length ≤ MAX_CACHE_SIZE := by
  unfold fetchCVEsForKeywordStep
  cases hg : getCached c now (k ++ '-' :: natDigits rpp) with
  | some data => simp only [hg]; exact h
  | none =>
    simp only [hg]
    cases remote with
    | error e => exact h
    | ok raw =>
      cases hv : validateNVDResponse raw with
      | error e => simp only [hv]; exact h
      | ok data =>
        simp only [hv]
        split
        · exact h
        · exact setCacheTs_bound _ _ _ _ h

/-- C7 (amended): the extension service's vulnerability cache never holds
more than 500 entries: starting from the empty map, any sequence of keyword
fetches and clears leaves at most MAX_CACHE_SIZE entries, because a write to
a full cache first deletes the oldest tenth of the entries in insertion
order.  (The Electron service's cache has no such bound; see the
counterexample.) -/
theorem extension_cache_bounded (ops : List CacheOp) :
    (runCacheOps ops).length ≤ MAX_CACHE_SIZE := by
  suffices h : ∀ c, c.length ≤ MAX_CACHE_SIZE → (ops.foldl applyCacheOp c).length ≤ MAX_CACHE_SIZE by
    exact h [] (by simp [MAX_CACHE_SIZE])
  induction ops with
  | nil => intro c hc; simpa using hc
  | cons op ops ih =>
    intro c hc
    simp only [List.foldl_cons]
    refine ih _ ?_
    cases op with
    | clearOp => simp [applyCacheOp, MAX_CACHE_SIZE]
    | fetchOp now k rpp remote => exact fetchStep_cache_bound _ _ _ _ _ hc

/-- The Electron cache key list after n distinct-key fetches. -/
theorem jsCacheAfter_keys (n : Nat) :
    (jsCacheAfter n).map Prod.fst = (List.range n).map (fun i => List.replicate i 'a') := by
  induction n with
  | zero => simp [jsCacheAfter]
  | succ n ih =>
    have hfresh : (jsCacheAfter n).any (fun kv => kv.1 = List.replicate n 'a') = false := by
      rw [List.any_eq_false]
      intro kv hkv
      have hmem : kv.1 ∈ (jsCacheAfter n).map Prod.fst := List.mem_map_of_mem _ hkv
      rw [ih] at hmem
      rcases List.mem_map.mp hmem with ⟨i, hi, hkey⟩
      have hil : i < n := List.mem_range.mp hi
      have hne : kv.1 ≠ List.replicate n 'a' := by
        rw [← hkey]
        intro hcontra
        have h1 : (List.replicate i 'a').length = (List.replicate n 'a').length := by
          rw [hcontra]
        simp only [List.length_replicate] at h1
        omega
      simpa using hne
    simp only [jsCacheAfter, setCacheJs, mapSet, hfresh]
    simp only [Bool.false_eq_true, if_false, List.map_append, ih, List.range_succ, List.map_append]
    simp

theorem jsCacheAfter_length (n : Nat) : (jsCacheAfter n).length = n := by
  have := jsCacheAfter_keys n
  have h1 : ((jsCacheAfter n).map Prod.fst).length = ((List.range n).map (fun i => List.replicate i 'a')).length := by rw [this]
  simpa using h1

/-- C7 counterexample to the claim as stated: the Electron host's setCache
(nvdService.js) never evicts, so 501 distinct-key writes leave 501 > 500
entries in its process-wide cache. -/
theorem nvd_cache_unbounded :
    (jsCacheAfter 501).length = 501 ∧ MAX_CACHE_SIZE < (jsCacheAfter 501).length := by
  have h := jsCacheAfter_length 501
  exact ⟨h, by rw [h]; simp [MAX_CACHE_SIZE]⟩

/-!  C8: reference sanitization. -/

theorem exceptBind_ok {ε α β : Type} (x : Except ε α) (f : α → Except ε β) (b : β) :
    x >>= f = .ok b ↔ ∃ a, x = .ok a ∧ f a = .ok b := by
  cases x with
  | error e =>
    constructor
    · intro h; simp [Bind.bind, Except.bind] at h
    · rintro ⟨a, ha, _⟩; simp at ha
  | ok a =>
    constructor
    · intro h
      refine ⟨a, rfl, ?_⟩
      simpa [Bind.bind, Except.bind] using h
    · rintro ⟨a', ha, hf⟩
      have : a' = a := by simpa using ha.symm
      subst this
      simpa [Bind.bind, Except.bind] using hf

/-- The references field of a successfully parsed record comes from buildRefs
over the first five raw references. -/
theorem parseCVE_refs_shape (san : Option Json → List Char) (item : Json) (rec : CVERec)
    (h : parseCVE san item = .ok rec) :
    ∃ (refs : List Json) (rs : List RefRec), buildRefs san (refs.take 5) = Except.ok rs ∧ rec.references = rs := by
  unfold parseCVE at h
  rw [exceptBind_ok] at h
  obtain ⟨cve, _, h⟩ := h
  rw [exceptBind_ok] at h
  obtain ⟨cvss, _, h⟩ := h
  rw [exceptBind_ok] at h
  obtain ⟨descO, _, h⟩ := h
  rw [exceptBind_ok] at h
  obtain ⟨ds, _, h⟩ := h
  rw [exceptBind_ok] at h
  obtain ⟨englishDesc, _, h⟩ := h
  rw [exceptBind_ok] at h
  obtain ⟨ev, _, h⟩ := h
  rw [exceptBind_ok] at h
  obtain ⟨d0, _, h⟩ := h
  rw [exceptBind_ok] at h
  obtain ⟨d0v, _, h⟩ := h
  rw [exceptBind_ok] at h
  obtain ⟨cfgO, _, h⟩ := h
  rw [exceptBind_ok] at h
  obtain ⟨cfgs, _, h⟩ := h
  rw [exceptBind_ok] at h
  obtain ⟨affected, _, h⟩ := h
  rw [exceptBind_ok] at h
  obtain ⟨refsO, _, h⟩ := h
  rw [exceptBind_ok] at h
  obtain ⟨refs, _, h⟩ := h
  rw [exceptBind_ok] at h
  obtain ⟨rs, hrs, h⟩ := h
  rw [exceptBind_ok] at h
  obtain ⟨idO, _, h⟩ := h
  rw [exceptBind_ok] at h
  obtain ⟨published, _, h⟩ := h
  rw [exceptBind_ok] at h
  obtain ⟨lastModified, _, h⟩ := h
  refine ⟨refs, rs, hrs, ?_⟩
  have hrec : rec.references = rs := by
    have := congrArg CVERec.references (by simpa [pure, Except.pure] using h.symm :
      rec = { id := idO, description := sanitizeStringJ _ MAX_DESCRIPTION_LENGTH,
              score := cvss.1, severity := cvss.2.1, cvssVersion := cvss.2.2,
              published := published, lastModified := lastModified,
              affectedProducts := affected.take 50, references := rs,
              url := strL "https://nvd.nist.gov/vuln/detail/" ++ encodeURIComp (jsToStringOpt idO) })
    simpa using this
  exact hrec

theorem sanitizeUrlTs_spec (v : Option Json) (h : sanitizeUrlTs v ≠ []) :
    startsWithL (sanitizeUrlTs v) (strL "https://") = true ∧
    (sanitizeUrlTs v).length ≤ MAX_URL_LENGTH := by
  cases v with
  | none => simp [sanitizeUrlTs] at h
  | some j =>
    cases j with
    | str s =>
      unfold sanitizeUrlTs at h ⊢
      by_cases h1 : MAX_URL_LENGTH < (trimJS s).length
      · simp [h1] at h
      · by_cases h2 : startsWithL (trimJS s) (strL "https://") = true
        · refine ⟨by simp [h1, h2], ?_⟩
          simp only [h1, if_false, h2]
          simp only [not_true, if_neg]
          simp [h2]
          omega
        · simp [h1, h2] at h
    | null => simp [sanitizeUrlTs] at h
    | bool b => simp [sanitizeUrlTs] at h
    | num m e => simp [sanitizeUrlTs] at h
    | arr xs => simp [sanitizeUrlTs] at h
    | obj fs => simp [sanitizeUrlTs] at h

theorem sanitizeUrlJs_spec (v : Option Json) (h : sanitizeUrlJs v ≠ []) :
    (startsWithL (sanitizeUrlJs v) (strL "https://") = true ∨
     startsWithL (sanitizeUrlJs v) (strL "http://") = true) ∧
    (sanitizeUrlJs v).length ≤ MAX_URL_LENGTH := by
  cases v with
  | none => simp [sanitizeUrlJs] at h
  | some j =>
    cases j with
    | str s =>
      unfold sanitizeUrlJs at h ⊢
      by_cases h1 : MAX_URL_LENGTH < (trimJS s).length
      · simp [h1] at h
      · by_cases h2 : (startsWithL (trimJS s) (strL "https://") = true ∨ startsWithL (trimJS s) (strL "http://") = true)
        · refine ⟨by simp [h1, h2], ?_⟩
          simp [h1, h2]
          omega
        · simp [h1, h2] at h
    | null => simp [sanitizeUrlJs] at h
    | bool b => simp [sanitizeUrlJs] at h
    | num m e => simp [sanitizeUrlJs] at h
    | arr xs => simp [sanitizeUrlJs] at h
    | obj fs => simp [sanitizeUrlJs] at h

theorem buildRefs_facts (san : Option Json → List Char) :
    ∀ (l : List Json) (rs : List RefRec), buildRefs san l = .ok rs →
      rs.length ≤ l.length ∧ ∀ r ∈ rs, ∃ u, r.url = san u ∧ san u ≠ [] := by
  intro l
  induction l with
  | nil =>
    intro rs h
    simp only [buildRefs] at h
    cases h
    simp
  | cons r l ih =>
    intro rs h
    unfold buildRefs at h
    rw [exceptBind_ok] at h
    obtain ⟨u, hu, h⟩ := h
    rw [exceptBind_ok] at h
    obtain ⟨rest, hrest, h⟩ := h
    obtain ⟨hlen, hprops⟩ := ih rest hrest
    by_cases hne : san u ≠ []
    · rw [if_pos hne] at h
      have hrs : rs = ⟨san u⟩ :: rest := by simpa [pure, Except.pure] using h.symm
      subst hrs
      refine ⟨by simpa using Nat.succ_le_succ hlen, ?_⟩
      intro x hx
      rcases List.mem_cons.mp hx with rfl | hx
      · exact ⟨u, rfl, hne⟩
      · exact hprops x hx
    · rw [if_neg hne] at h
      have hrs : rs = rest := by simpa [pure, Except.pure] using h.symm
      subst hrs
      exact ⟨Nat.le_succ_of_le hlen, hprops⟩

/-- C8 (amended): every parsed record keeps at most 5 references, each with
a url within the length cap; in the extension service every retained url
starts with https://, while the Electron service also retains http:// urls. -/
theorem references_capped_and_scheme_filtered (item : Json) (rec : CVERec) :
    (parseCVE sanitizeUrlTs item = .ok rec →
      rec.references.length ≤ 5 ∧ ∀ r ∈ rec.references,
        startsWithL r.url (strL "https://") = true ∧ r.url.length ≤ MAX_URL_LENGTH) ∧
    (parseCVE sanitizeUrlJs item = .ok rec →
      rec.references.length ≤ 5 ∧ ∀ r ∈ rec.references,
        (startsWithL r.url (strL "https://") = true ∨ startsWithL r.url (strL "http://") = true) ∧
        r.url.length ≤ MAX_URL_LENGTH) := by
  constructor
  · intro h
    obtain ⟨refs, rs, hbuild, hrefs⟩ := parseCVE_refs_shape _ _ _ h
    obtain ⟨hlen, hprops⟩ := buildRefs_facts _ _ _ hbuild
    rw [hrefs]
    refine ⟨le_trans hlen (List.length_take_le 5 refs), ?_⟩
    intro r hr
    obtain ⟨u, hurl, hne⟩ := hprops r hr
    rw [hurl]
    exact sanitizeUrlTs_spec u hne
  · intro h
    obtain ⟨refs, rs, hbuild, hrefs⟩ := parseCVE_refs_shape _ _ _ h
    obtain ⟨hlen, hprops⟩ := buildRefs_facts _ _ _ hbuild
    rw [hrefs]
    refine ⟨le_trans hlen (List.length_take_le 5 refs), ?_⟩
    intro r hr
    obtain ⟨u, hurl, hne⟩ := hprops r hr
    rw [hurl]
    exact sanitizeUrlJs_spec u hne

/-- An item whose single reference is an http:// url. -/
def httpRefItem : Json :=
  .obj [(strL "cve", .obj
    [(strL "id", .str (strL "CVE-2024-0001")),
     (strL "references", .arr [.obj [(strL "url", .str (strL "http://insecure.example/advisory"))]])])]

/-- C8 counterexample to the claim as stated: the Electron host's parseCVE
retains a reference whose url starts with http://, not https://. -/
theorem nvd_reference_keeps_http :
    (match parseCVE sanitizeUrlJs httpRefItem with
     | .ok rec => rec.references.map RefRec.url
     | .error _ => []) = [strL "http://insecure.example/advisory"] ∧
    startsWithL (strL "http://insecure.example/advisory") (strL "https://") = false :=
  ⟨rfl, by decide⟩

def httpsRefItem : Json :=
  .obj [(strL "cve", .obj
    [(strL "id", .str (strL "CVE-2024-0002")),
     (strL "references", .arr [.obj [(strL "url", .str (strL "https://ok.example/a"))]])])]

def httpsRefRec : CVERec :=
  { id := some (.str (strL "CVE-2024-0002")),
    description := strL "No description available",
    score := some .null, severity := some (.str (strL "NONE")), cvssVersion := some .null,
    published := none, lastModified := none, affectedProducts := [],
    references := [⟨strL "https://ok.example/a"⟩],
    url := strL "https://nvd.nist.gov/vuln/detail/CVE-2024-0002" }

theorem references_capped_witness :
    httpsRefRec.references.length ≤ 5 ∧ ∀ r ∈ httpsRefRec.references,
      startsWithL r.url (strL "https://") = true ∧ r.url.length ≤ MAX_URL_LENGTH :=
  (references_capped_and_scheme_filtered httpsRefItem httpsRefRec).1 rfl

/-!  C4: the TTL cache. -/

theorem find?_map_update (k : List Char) (e : CacheEntry) :
    ∀ c : Cache, c.any (fun kv => kv.1 = k) = true →
      (c.map (fun kv => if kv.1 = k then (k, e) else kv)).find? (fun kv => kv.1 = k) = some (k, e) := by
  intro c
  induction c with
  | nil => simp
  | cons kv c ih =>
    intro hany
    by_cases hk : kv.1 = k
    · simp [hk, List.find?]
    · simp only [List.map_cons, if_neg hk]
      have hgoal := ih (by simpa [hk] using hany)
      simpa [hk] using hgoal

theorem find?_append_fresh (k : List Char) (e : CacheEntry) :
    ∀ c : Cache, c.any (fun kv => kv.1 = k) = false →
      (c ++ [(k, e)]).find? (fun kv => kv.1 = k) = some (k, e) := by
  intro c
  induction c with
  | nil => simp
  | cons kv c ih =>
    intro hany
    simp only [List.any_cons, Bool.or_eq_false_iff] at hany
    have hk : ¬ kv.1 = k := by simpa using hany.1
    rw [List.cons_append]
    have hgoal := ih hany.2
    simpa [hk] using hgoal

theorem cacheLookup_mapSet (c : Cache) (k : List Char) (e : CacheEntry) :
    cacheLookup (mapSet c k e) k = some e := by
  unfold mapSet cacheLookup
  cases hany : c.any (fun kv => kv.1 = k) with
  | true => rw [if_pos rfl, find?_map_update k e c hany]; rfl
  | false => rw [if_neg (by simp [hany]), find?_append_fresh k e c hany]; rfl

theorem getCached_after_setCacheTs (c : Cache) (key : List Char) (data : List CVERec)
    (t1 t2 : Int) (h : t2 - t1 < CACHE_TTL) :
    getCached (setCacheTs c key data t1) t2 key = some data := by
  unfold setCacheTs getCached
  rw [cacheLookup_mapSet]
  simpa using h

/-- C4: after a successful uncached fetchCVEsForKeyword call at t1 (which
issues exactly one remote request and stores the records), a second call for
the same keyword and page size at any t2 within the TTL window issues no
remote request — whatever the network would have answered — and returns the
cached records, so the two calls together issue exactly one request. -/
theorem keyword_fetch_cached_within_ttl
    (cache : Cache) (t1 t2 : Int) (k : List Char) (n : Nat)
    (remote remote2 : Except NetErr Json) (cves : List CVERec)
    (hmiss : getCached cache t1 (k ++ '-' :: natDigits n) = none)
    (hok : (fetchCVEsForKeywordStep cache t1 k n remote).result = .ok cves)
    (httl : t2 - t1 < CACHE_TTL) :
    (fetchCVEsForKeywordStep cache t1 k n remote).requests = 1 ∧
    (fetchCVEsForKeywordStep (fetchCVEsForKeywordStep cache t1 k n remote).cache t2 k n remote2).requests = 0 ∧
    (fetchCVEsForKeywordStep (fetchCVEsForKeywordStep cache t1 k n remote).cache t2 k n remote2).result = .ok cves ∧
    (fetchCVEsForKeywordStep cache t1 k n remote).requests +
      (fetchCVEsForKeywordStep (fetchCVEsForKeywordStep cache t1 k n remote).cache t2 k n remote2).requests = 1 := by
  unfold fetchCVEsForKeywordStep at hok ⊢
  simp only [hmiss] at hok ⊢
  cases remote with
  | error e => simp at hok
  | ok raw =>
    dsimp only at hok ⊢
    cases hv : validateNVDResponse raw with
    | error e => rw [hv] at hok; simp at hok
    | ok data =>
      rw [hv] at hok
      dsimp only at hok ⊢
      split at hok
      · simp at hok
      · rename_i cves' hm
        dsimp only at hok
        have hc : cves' = cves := by simpa using hok
        subst hc
        have hhit := getCached_after_setCacheTs cache (k ++ '-' :: natDigits n) cves' t1 t2 httl
        simp [hhit]

theorem keyword_fetch_cached_within_ttl_witness :
    (fetchCVEsForKeywordStep [] 0 (strL "react") 10 (.ok (Json.obj []))).requests = 1 ∧
    (fetchCVEsForKeywordStep (fetchCVEsForKeywordStep [] 0 (strL "react") 10 (.ok (Json.obj []))).cache
      1000 (strL "react") 10 (.error .timeout)).requests = 0 ∧
    (fetchCVEsForKeywordStep (fetchCVEsForKeywordStep [] 0 (strL "react") 10 (.ok (Json.obj []))).cache
      1000 (strL "react") 10 (.error .timeout)).result = .ok [] ∧
    (fetchCVEsForKeywordStep [] 0 (strL "react") 10 (.ok (Json.obj []))).requests +
      (fetchCVEsForKeywordStep (fetchCVEsForKeywordStep [] 0 (strL "react") 10 (.ok (Json.obj []))).cache
        1000 (strL "react") 10 (.error .timeout)).requests = 1 :=
  keyword_fetch_cached_within_ttl [] 0 1000 (strL "react") 10 (.ok (Json.obj []))
    (.error .timeout) [] rfl rfl (by decide)


/-!  C5: the spec's description of the batch schedule, as its own
definitions, compared with the event trace the loop produces. -/

/-- The spec's partition into consecutive batches of 5 (fuel-structural; the
fuel is spent one unit per batch). -/
def chunk5F {α : Type} : Nat → List α → List (List α)
  | 0, _ => []
  | _ + 1, [] => []
  | f + 1, x :: xs => (x :: xs).take BATCH_SIZE :: chunk5F f ((x :: xs).drop BATCH_SIZE)

def chunk5 {α : Type} (l : List α) : List (List α) := chunk5F (l.length + 1) l

/-- The spec's schedule: the batches in order, with a delay before every
batch except the first. -/
def specSchedule {α : Type} : List (List α) → List (BatchEv α)
  | [] => []
  | b :: rest => BatchEv.batch b :: rest.flatMap (fun b => [BatchEv.delay, BatchEv.batch b])

def isDelay {α : Type} : BatchEv α → Bool
  | .delay => true
  | .batch _ => false

theorem chunk5F_join {α : Type} :
    ∀ (f : Nat) (l : List α), l.length < f → (chunk5F f l).flatten = l := by
  intro f
  induction f with
  | zero => intro l h; omega
  | succ f ih =>
    intro l h
    cases l with
    | nil => simp [chunk5F]
    | cons x xs =>
      have hlen : ((x :: xs).drop BATCH_SIZE).length < f := by
        simp only [List.length_drop, List.length_cons, BATCH_SIZE] at h ⊢
        omega
      simp only [chunk5F, List.flatten_cons]
      rw [ih _ hlen]
      exact List.take_append_drop _ _

theorem chunk5F_mem_len {α : Type} :
    ∀ (f : Nat) (l : List α), ∀ b ∈ chunk5F f l, 0 < b.length ∧ b.length ≤ BATCH_SIZE := by
  intro f
  induction f with
  | zero => intro l b hb; simp [chunk5F] at hb
  | succ f ih =>
    intro l b hb
    cases l with
    | nil => simp [chunk5F] at hb
    | cons x xs =>
      simp only [chunk5F] at hb
      rcases List.mem_cons.mp hb with rfl | hb
      · constructor
        · simp [BATCH_SIZE]
        · simpa using List.length_take_le BATCH_SIZE (x :: xs)
      · exact ih _ b hb

theorem chunk5F_nonlast_full {α : Type} :
    ∀ (f : Nat) (l : List α) (i : Nat) (b : List α),
      (chunk5F f l)[i]? = some b → i + 1 < (chunk5F f l).length → b.length = BATCH_SIZE := by
  intro f
  induction f with
  | zero => intro l i b hb _; simp [chunk5F] at hb
  | succ f ih =>
    intro l i b hb hlt
    cases l with
    | nil => simp [chunk5F] at hb
    | cons x xs =>
      simp only [chunk5F] at hb hlt
      cases i with
      | zero =>
        simp only [List.getElem?_cons_zero, Option.some.injEq] at hb
        subst hb
        simp only [List.length_cons] at hlt
        have hne : chunk5F f ((x :: xs).drop BATCH_SIZE) ≠ [] := by
          intro hcon
          rw [hcon] at hlt
          simp at hlt
        have hdrop : (x :: xs).drop BATCH_SIZE ≠ [] := by
          intro hcon
          cases f with
          | zero => exact hne rfl
          | succ g => rw [hcon] at hne; exact hne rfl
        have hlen : BATCH_SIZE < (x :: xs).length := by
          by_contra hc
          exact hdrop (List.drop_eq_nil_of_le (by omega))
        simp only [List.length_take, List.length_cons, BATCH_SIZE] at hlen ⊢
        omega
      | succ i =>
        simp only [List.getElem?_cons_succ] at hb
        simp only [List.length_cons] at hlt
        exact ih _ i b hb (by omega)

theorem runBatchesF_events_false (fetch : List Char → Except FetchFail (List CVERec)) :
    ∀ (f : Nat) (l : List Product) (st : List (Option Json) × List TaggedCVE),
      (runBatchesF fetch f l false st).1 =
        (chunk5F f l).flatMap (fun b => [BatchEv.delay, BatchEv.batch b]) := by
  intro f
  induction f with
  | zero => intro l st; simp [runBatchesF, chunk5F]
  | succ f ih =>
    intro l st
    cases l with
    | nil => simp [runBatchesF, chunk5F]
    | cons x xs =>
      simp only [runBatchesF, chunk5F, List.flatMap_cons]
      rw [ih]
      simp

theorem runBatchesF_events_true (fetch : List Char → Except FetchFail (List CVERec)) :
    ∀ (f : Nat) (l : List Product) (st : List (Option Json) × List TaggedCVE),
      (runBatchesF fetch f l true st).1 = specSchedule (chunk5F f l) := by
  intro f l st
  cases f with
  | zero => simp [runBatchesF, chunk5F, specSchedule]
  | succ f =>
    cases l with
    | nil => simp [runBatchesF, chunk5F, specSchedule]
    | cons x xs =>
      simp only [runBatchesF, chunk5F, specSchedule]
      rw [runBatchesF_events_false]
      simp

theorem specSchedule_count_delay {α : Type} (bs : List (List α)) :
    (specSchedule bs).countP (fun e => isDelay e) = bs.length - 1 := by
  have h : ∀ r : List (List α),
      (r.flatMap (fun b => [BatchEv.delay, BatchEv.batch b])).countP (fun e => isDelay e) = r.length := by
    intro r
    induction r with
    | nil => simp
    | cons y ys ihy =>
      rw [List.flatMap_cons, List.countP_append, ihy]
      simp [List.countP_cons, isDelay]
      omega
  cases bs with
  | nil => simp [specSchedule]
  | cons b rest =>
    simp only [specSchedule, List.countP_cons]
    rw [h rest]
    simp [isDelay]

theorem specSchedule_batch_mem {α : Type} (bs : List (List α)) (b : List α) :
    BatchEv.batch b ∈ specSchedule bs → b ∈ bs := by
  cases bs with
  | nil => simp [specSchedule]
  | cons c rest =>
    intro h
    simp only [specSchedule, List.mem_cons] at h
    rcases h with h | h
    · simp only [BatchEv.batch.injEq] at h
      subst h
      exact List.mem_cons_self _ _
    · rw [List.mem_flatMap] at h
      obtain ⟨y, hy, hmem⟩ := h
      simp only [List.mem_cons, List.not_mem_nil, or_false] at hmem
      rcases hmem with h1 | h1
      · simp at h1
      · simp only [BatchEv.batch.injEq] at h1
        subst h1
        exact List.mem_cons_of_mem _ hy

theorem chunk5F_length {α : Type} :
    ∀ (f : Nat) (l : List α), l.length < f →
      (chunk5F f l).length = (l.length + BATCH_SIZE - 1) / BATCH_SIZE := by
  intro f
  induction f with
  | zero => intro l h; omega
  | succ f ih =>
    intro l h
    cases l with
    | nil =>
      show (0 : Nat) = (0 + BATCH_SIZE - 1) / BATCH_SIZE
      rfl
    | cons x xs =>
      have hlen : ((x :: xs).drop BATCH_SIZE).length < f := by
        simp only [List.length_drop, List.length_cons, BATCH_SIZE] at h ⊢
        omega
      simp only [chunk5F, List.length_cons]
      rw [ih _ hlen]
      simp only [List.length_drop, List.length_cons, BATCH_SIZE]
      omega

/-- C5: fetchCVEsForProducts partitions its input into consecutive batches
of BATCH_SIZE processed strictly sequentially; the trace equals the spec's
schedule (a delay before every batch except the first), every batch except
the last holds exactly 5 products, no batch exceeds 5 (so at most 5 keyword
requests are ever in flight at once), and a 12-product input yields exactly
3 batches with exactly 2 inter-batch delays. -/
theorem fetch_products_batching (fetch : List Char → Except FetchFail (List CVERec))
    (products : List Product) :
    (fetchCVEsForProducts fetch products).1 = specSchedule (chunk5 products) ∧
    (chunk5 products).flatten = products ∧
    (∀ b ∈ chunk5 products, 0 < b.length ∧ b.length ≤ BATCH_SIZE) ∧
    (∀ i b, (chunk5 products)[i]? = some b → i + 1 < (chunk5 products).length →
      b.length = BATCH_SIZE) ∧
    ((fetchCVEsForProducts fetch products).1.countP (fun e => isDelay e) =
      (chunk5 products).length - 1) ∧
    (∀ b, BatchEv.batch b ∈ (fetchCVEsForProducts fetch products).1 → b.length ≤ BATCH_SIZE) ∧
    (products.length = 12 → (chunk5 products).length = 3 ∧
      (fetchCVEsForProducts fetch products).1.countP (fun e => isDelay e) = 2) := by
  have hevs : (fetchCVEsForProducts fetch products).1 = specSchedule (chunk5 products) := by
    cases products with
    | nil => rfl
    | cons x xs =>
      simp only [fetchCVEsForProducts]
      exact runBatchesF_events_true fetch _ _ _
  have hful : products.length < products.length + 1 := Nat.lt_succ_self _
  have hcount : (fetchCVEsForProducts fetch products).1.countP (fun e => isDelay e) =
      (chunk5 products).length - 1 := by
    rw [hevs]; exact specSchedule_count_delay _
  refine ⟨hevs, chunk5F_join _ _ hful, fun b hb => chunk5F_mem_len _ _ b hb,
    fun i b hb hlt => chunk5F_nonlast_full _ _ i b hb hlt, hcount, ?_, ?_⟩
  · intro b hb
    rw [hevs] at hb
    exact (chunk5F_mem_len _ _ b (specSchedule_batch_mem _ b hb)).2
  · intro h12
    have hlen3 : (chunk5 products).length = 3 := by
      simp only [chunk5]
      rw [chunk5F_length _ _ hful, h12]
      rfl
    exact ⟨hlen3, by rw [hcount, hlen3]⟩

theorem fetch_products_batching_witness :
    (chunk5 ((List.range 12).map (fun i => Product.mk (natDigits i) []))).length = 3 ∧
    (fetchCVEsForProducts (fun _ => .error (.net .timeout))
      ((List.range 12).map (fun i => Product.mk (natDigits i) []))).1.countP
        (fun e => isDelay e) = 2 :=
  (fetch_products_batching (fun _ => .error (.net .timeout))
    ((List.range 12).map (fun i => Product.mk (natDigits i) []))).2.2.2.2.2.2 (by decide)

/-!  C6: per-keyword validation failure and batch-sibling independence. -/

theorem validateItems_error_of_bad :
    ∀ (items : List Json) (item : Json), item ∈ items → validateItem item ≠ .ok () →
      ∃ e, validateItems items = .error e := by
  intro items
  induction items with
  | nil => intro item h; simp at h
  | cons v vs ih =>
    intro item hmem hbad
    rcases List.mem_cons.mp hmem with rfl | hmem
    · cases hv : validateItem item with
      | error e => exact ⟨e, by simp [validateItems, hv]⟩
      | ok u => cases u; exact absurd hv hbad
    · cases hv : validateItem v with
      | error e => exact ⟨e, by simp [validateItems, hv]⟩
      | ok u =>
        cases u
        obtain ⟨e, he⟩ := ih item hmem hbad
        exact ⟨e, by simp [validateItems, hv, he]⟩

theorem validate_fails_on_bad_item (data : Json) (items : List Json) (item : Json)
    (hvulns : jsField data (strL "vulnerabilities") = .ok (some (.arr items)))
    (hmem : item ∈ items) (hbad : validateItem item ≠ .ok ()) :
    ∃ e, validateNVDResponse data = .error e := by
  unfold validateNVDResponse
  by_cases hobj : (Json.truthy data ∧ typeofIsObject (some data) = true)
  · rw [if_neg (not_not_intro hobj)]
    rw [hvulns]
    obtain ⟨e, he⟩ := validateItems_error_of_bad items item hmem hbad
    exact ⟨e, by simp [he]⟩
  · exact ⟨.notObject, if_pos hobj⟩

theorem dedup_fold_tag (n : List Char) :
    ∀ (recs : List CVERec) (seen : List (Option Json)) (acc : List TaggedCVE),
      (∀ t ∈ acc, t.matchedProduct = n) →
      ∀ t ∈ (recs.foldl (dedupStep n) (seen, acc)).2, t.matchedProduct = n := by
  intro recs
  induction recs with
  | nil => intro seen acc h t ht; exact h t ht
  | cons r rs ih =>
    intro seen acc h t ht
    simp only [List.foldl_cons] at ht
    unfold dedupStep at ht
    dsimp only at ht
    by_cases hs : seen.any (fun s => idEq s r.id)
    · rw [if_pos hs] at ht
      exact ih seen acc h t ht
    · rw [if_neg hs] at ht
      refine ih _ _ ?_ t ht
      intro u hu
      rcases List.mem_append.mp hu with h1 | h2
      · exact h u h1
      · rcases List.mem_singleton.mp h2 with rfl
        rfl

theorem sibling_ok_pair (fetch : List Char → Except FetchFail (List CVERec))
    (pA pB : Product) (fA : FetchFail) (recs : List CVERec)
    (hfA : fetch (keywordOf pA) = .error fA)
    (hfB : fetch (keywordOf pB) = .ok recs) :
    fetchCVEsForProducts fetch [pA, pB]
      = ([.batch [pA, pB]],
         sortPubDesc (recs.foldl (dedupStep pB.name) ([], [])).2) := by
  simp [fetchCVEsForProducts, runBatchesF, BATCH_SIZE, processProduct, catchEmpty, hfA, hfB]

/-- C6: a vulnerabilities element whose nested cve id fails validation makes
the whole keyword fetch fail — the step returns an error, caches nothing and
spends its one request, yielding no partial records — while in
fetchCVEsForProducts a failed product in a batch degrades to an empty
contribution and a sibling product of the same batch still delivers its
records, each tagged with the sibling's name. -/
theorem bad_item_fails_keyword_sibling_unaffected
    (cache : Cache) (now : Int) (keyword : List Char) (rpp : Nat)
    (data : Json) (items : List Json) (item : Json)
    (hmiss : getCached cache now (keyword ++ '-' :: natDigits rpp) = none)
    (hvulns : jsField data (strL "vulnerabilities") = .ok (some (.arr items)))
    (hmem : item ∈ items) (hbad : validateItem item ≠ .ok ())
    (fetch : List Char → Except FetchFail (List CVERec))
    (pA pB : Product) (fA : FetchFail) (recs : List CVERec)
    (hfA : fetch (keywordOf pA) = .error fA)
    (hfB : fetch (keywordOf pB) = .ok recs) :
    (∃ e, fetchCVEsForKeywordStep cache now keyword rpp (.ok data)
        = ⟨.error (.validation e), cache, 1⟩)
    ∧ fetchCVEsForProducts fetch [pA, pB]
        = ([.batch [pA, pB]],
           sortPubDesc (recs.foldl (dedupStep pB.name) ([], [])).2)
    ∧ ∀ t ∈ (fetchCVEsForProducts fetch [pA, pB]).2, t.matchedProduct = pB.name := by
  obtain ⟨e, he⟩ := validate_fails_on_bad_item data items item hvulns hmem hbad
  refine ⟨⟨e, ?_⟩, sibling_ok_pair fetch pA pB fA recs hfA hfB, ?_⟩
  · simp [fetchCVEsForKeywordStep, hmiss, he]
  · intro t ht
    rw [sibling_ok_pair fetch pA pB fA recs hfA hfB] at ht
    simp only [sortPubDesc, List.mem_insertionSort] at ht
    exact dedup_fold_tag pB.name recs [] [] (by intro u hu; simp at hu) t ht

theorem bad_item_fails_keyword_sibling_unaffected_witness :
    ((∃ e, fetchCVEsForKeywordStep [] 0 (strL "react") 2000 (.ok c6Data)
        = ⟨.error (.validation e), [], 1⟩)
    ∧ fetchCVEsForProducts c6Fetch [c6PA, c6PB]
        = ([.batch [c6PA, c6PB]],
           sortPubDesc (([c6RecB].foldl (dedupStep c6PB.name) ([], []))).2)
    ∧ ∀ t ∈ (fetchCVEsForProducts c6Fetch [c6PA, c6PB]).2,
        t.matchedProduct = c6PB.name) :=
  bad_item_fails_keyword_sibling_unaffected [] 0 (strL "react") 2000
    c6Data [c6Item] c6Item rfl rfl (List.mem_singleton.mpr rfl)
    (by rw [show validateItem c6Item = Except.error VErr.badIdFormat from rfl]
        exact fun h => Except.noConfusion h)
    c6Fetch c6PA c6PB (.net .timeout) [c6RecB] rfl rfl

/-!  C2 and C9: the scanner totals invariant and counter discipline. -/

theorem foldl_pres {α β : Type} (P : β → Prop) (G : β → α → β)
    (hG : ∀ acc e, P acc → P (G acc e)) :
    ∀ (es : List α) (acc : β), P acc → P (es.foldl G acc) := by
  intro es
  induction es with
  | nil => intro acc h; exact h
  | cons e es ihe => intro acc h; exact ihe _ (hG acc e h)

theorem foldl_add_map {α : Type} (f : α → Nat) :
    ∀ (l : List α) (a : Nat), l.foldl (fun n x => n + f x) a = a + (l.map f).sum := by
  intro l
  induction l with
  | nil => intro a; simp
  | cons x xs ih => intro a; simp [ih]; omega

theorem scanDirF_inv : ∀ (fuel : Nat) (dirPath : List Char) (eo : Option (List FSEntry))
    (depth maxDepth : Nat) (s : ScanState) (node : FolderNode) (s' : ScanState),
    scanDirF fuel dirPath eo depth maxDepth s = (some node, s') → NodeInv node := by
  intro fuel
  induction fuel with
  | zero => intro _ _ _ _ _ node s' h; exact absurd h (by simp [scanDirF])
  | succ f ih =>
    intro dirPath eo depth maxDepth s node s' h
    unfold scanDirF at h
    split at h
    · simp at h
    · dsimp only at h
      split at h
      · simp at h
      · match eo with
        | none => simp at h
        | some entries =>
          dsimp only at h
          split at h
          · simp at h
          · split at h
            · simp at h
            · simp only [Prod.mk.injEq, Option.some.injEq] at h
              obtain ⟨h1, h2⟩ := h
              subst h1
              refine NodeInv.intro _ _ _ _ _ _ _ _ ?_ ?_ ?_
              · simp [foldl_add_map]
              · simp [foldl_add_map]
              · refine foldl_pres (fun (acc : List DepFile × List FolderNode × ScanState) => ∀ c ∈ acc.2.1, NodeInv c) _ ?_ _ _ (by simp)
                intro acc e hP
                cases e with
                | file nm content =>
                  dsimp only
                  cases depFileEco nm with
                  | some eco => exact hP
                  | none => exact hP
                | dir nm es2 =>
                  dsimp only
                  split
                  · exact hP
                  · rcases hsc : scanDirF f (joinPath dirPath nm) (some es2) (depth + 1) maxDepth acc.2.2 with ⟨childO, st2⟩
                    cases childO with
                    | some child =>
                      intro c hc
                      simp only at hc
                      rcases List.mem_append.mp hc with h1 | h1
                      · exact hP c h1
                      · rcases List.mem_singleton.mp h1 with rfl
                        exact ih _ _ _ _ _ _ _ hsc
                    | none => exact hP
                | baddir nm =>
                  dsimp only
                  split
                  · exact hP
                  · exact hP

/-- C2: every FolderNode a scan produces satisfies the recursive totals
invariant: totalPackages is the package count of its own manifest files plus
the children's totalPackages, and totalProjects is (1 if the node has a
manifest file else 0) plus the children's totalProjects, at every level of
the tree. -/
theorem scan_totals_recursive (rootPath : List Char) (eo : Option (List FSEntry))
    (t : FolderNode) (h : (scanProjectsFolder rootPath eo).tree = some t) :
    NodeInv t := by
  unfold scanProjectsFolder at h
  dsimp only at h
  rcases hs : scanDirF (5 + 2) rootPath eo 0 5
      { filesScanned := 0, foldersScanned := 0, scanLimitReached := false } with ⟨treeO, sF⟩
  rw [hs] at h
  cases treeO with
  | none => simp at h
  | some t2 =>
    rcases Option.some.inj h with rfl
    exact scanDirF_inv _ _ _ _ _ _ _ _ hs

theorem scan_totals_recursive_witness :
    ∃ t, (scanProjectsFolder (strL "proj") (some c2FS)).tree = some t ∧ NodeInv t := by
  have h : ((scanProjectsFolder (strL "proj") (some c2FS)).tree).isSome = true := by decide
  obtain ⟨t, ht⟩ := Option.isSome_iff_exists.mp h
  exact ⟨t, ht, scan_totals_recursive _ _ t ht⟩

theorem scanDirF_mono : ∀ (fuel : Nat) (dp : List Char) (eo : Option (List FSEntry))
    (depth maxDepth : Nat) (s : ScanState),
    s.filesScanned ≤ ((scanDirF fuel dp eo depth maxDepth s).2).filesScanned ∧
    s.foldersScanned ≤ ((scanDirF fuel dp eo depth maxDepth s).2).foldersScanned := by
  intro fuel
  induction fuel with
  | zero => intro dp eo depth maxDepth s; simp [scanDirF]
  | succ f ih =>
    intro dp eo depth maxDepth s
    unfold scanDirF
    split
    · simp
    · dsimp only
      split
      · simp
      · match eo with
        | none => simp
        | some entries =>
          dsimp only
          split
          · simp
          · have hfold := foldl_pres
              (fun (acc : List DepFile × List FolderNode × ScanState) =>
                s.filesScanned ≤ acc.2.2.filesScanned ∧ s.foldersScanned ≤ acc.2.2.foldersScanned)
              (fun acc e =>
                match e with
                | FSEntry.file nm content =>
                  match depFileEco nm with
                  | some eco => (acc.1 ++ [mkManifestFile dp nm eco content], acc.2.1, acc.2.2)
                  | none => (acc.1, acc.2.1, acc.2.2)
                | FSEntry.dir nm es =>
                  if (SKIP_DIRS.any fun d => decide (d = nm)) = true ∨ startsWithL nm (strL ".") = true then
                    (acc.1, acc.2.1, acc.2.2)
                  else
                    match scanDirF f (joinPath dp nm) (some es) (depth + 1) maxDepth acc.2.2 with
                    | (some child, st') => (acc.1, acc.2.1 ++ [child], st')
                    | (none, st') => (acc.1, acc.2.1, st')
                | FSEntry.baddir nm =>
                  if (SKIP_DIRS.any fun d => decide (d = nm)) = true ∨ startsWithL nm (strL ".") = true then
                    (acc.1, acc.2.1, acc.2.2)
                  else (acc.1, acc.2.1, (scanDirF f (joinPath dp nm) none (depth + 1) maxDepth acc.2.2).2))
              ?_ (sortEntries entries)
              ([], [], { filesScanned := s.filesScanned + entries.length,
                         foldersScanned := s.foldersScanned + 1,
                         scanLimitReached := s.scanLimitReached })
              (by constructor <;> simp)
            · split
              · exact hfold
              · exact hfold
            · intro acc e hP
              cases e with
              | file nm content =>
                dsimp only
                cases depFileEco nm with
                | some eco => exact hP
                | none => exact hP
              | dir nm es2 =>
                dsimp only
                split
                · exact hP
                · rcases hsc : scanDirF f (joinPath dp nm) (some es2) (depth + 1) maxDepth acc.2.2 with ⟨childO, st2⟩
                  have hm := ih (joinPath dp nm) (some es2) (depth + 1) maxDepth acc.2.2
                  rw [hsc] at hm
                  cases childO with
                  | some child => exact ⟨le_trans hP.1 hm.1, le_trans hP.2 hm.2⟩
                  | none => exact ⟨le_trans hP.1 hm.1, le_trans hP.2 hm.2⟩
              | baddir nm =>
                dsimp only
                split
                · exact hP
                · have hm := ih (joinPath dp nm) none (depth + 1) maxDepth acc.2.2
                  exact ⟨le_trans hP.1 hm.1, le_trans hP.2 hm.2⟩

theorem scanDirF_folder_quota (f : Nat) (dp : List Char) (eo : Option (List FSEntry))
    (depth maxDepth : Nat) (s : ScanState) (hd : depth ≤ maxDepth)
    (hq : MAX_FOLDERS_SCANNED < s.foldersScanned + 1) :
    scanDirF (f + 1) dp eo depth maxDepth s =
      (none, ⟨s.filesScanned, s.foldersScanned + 1, true⟩) := by
  unfold scanDirF
  rw [if_neg (not_lt.mpr hd)]
  rw [if_pos hq]

theorem scanDirF_file_quota (f : Nat) (dp : List Char) (es : List FSEntry)
    (depth maxDepth : Nat) (s : ScanState) (hd : depth ≤ maxDepth)
    (hq : s.foldersScanned + 1 ≤ MAX_FOLDERS_SCANNED)
    (hf : MAX_FILES_SCANNED < s.filesScanned + es.length) :
    scanDirF (f + 1) dp (some es) depth maxDepth s =
      (none, ⟨s.filesScanned + es.length, s.foldersScanned + 1, true⟩) := by
  unfold scanDirF
  rw [if_neg (not_lt.mpr hd)]
  dsimp only
  rw [if_neg (not_lt.mpr hq)]
  rw [if_pos hf]

/-- C9: within one scan, filesScanned and foldersScanned never decrease; and
whichever counter's increment first exceeds its quota (5000 folders, 10000
files) makes the scan of that directory halt immediately — the branch
returns no node, records the crossing increment and sets scanLimitReached,
so no counter exceeds its quota before the halt. -/
theorem scan_counters_monotone_and_quota_halt
    (fuel f : Nat) (dp : List Char) (eo : Option (List FSEntry)) (es : List FSEntry)
    (depth maxDepth : Nat) (s : ScanState) :
    (s.filesScanned ≤ ((scanDirF fuel dp eo depth maxDepth s).2).filesScanned
      ∧ s.foldersScanned ≤ ((scanDirF fuel dp eo depth maxDepth s).2).foldersScanned)
    ∧ (depth ≤ maxDepth → MAX_FOLDERS_SCANNED < s.foldersScanned + 1 →
        scanDirF (f + 1) dp eo depth maxDepth s
          = (none, ⟨s.filesScanned, s.foldersScanned + 1, true⟩))
    ∧ (depth ≤ maxDepth → s.foldersScanned + 1 ≤ MAX_FOLDERS_SCANNED →
        MAX_FILES_SCANNED < s.filesScanned + es.length →
        scanDirF (f + 1) dp (some es) depth maxDepth s
          = (none, ⟨s.filesScanned + es.length, s.foldersScanned + 1, true⟩)) :=
  ⟨scanDirF_mono fuel dp eo depth maxDepth s,
   fun hd hq => scanDirF_folder_quota f dp eo depth maxDepth s hd hq,
   fun hd hq hf => scanDirF_file_quota f dp es depth maxDepth s hd hq hf⟩

theorem scan_counters_monotone_and_quota_halt_witness :
    ((0 : Nat) ≤ ((scanDirF 1 (strL "r") (some c9FS) 0 5 ⟨0, 0, false⟩).2).filesScanned
      ∧ (0 : Nat) ≤ ((scanDirF 1 (strL "r") (some c9FS) 0 5 ⟨0, 0, false⟩).2).foldersScanned)
    ∧ scanDirF 1 (strL "r") (some c9FS) 0 5 ⟨0, 5000, false⟩
        = (none, ⟨0, 5001, true⟩)
    ∧ scanDirF 1 (strL "r") (some c9FS) 0 5 ⟨9999, 10, false⟩
        = (none, ⟨10001, 11, true⟩) :=
  ⟨(scan_counters_monotone_and_quota_halt 1 0 (strL "r") (some c9FS) c9FS 0 5 ⟨0, 0, false⟩).1,
   (scan_counters_monotone_and_quota_halt 1 0 (strL "r") (some c9FS) c9FS 0 5 ⟨0, 5000, false⟩).2.1
     (by decide) (by decide),
   (scan_counters_monotone_and_quota_halt 1 0 (strL "r") (some c9FS) c9FS 0 5 ⟨9999, 10, false⟩).2.2
     (by decide) (by decide) (by decide)⟩

/-!  C1: the degrade-don't-abort contract of parseDependencyFile. -/

theorem foldE_err_kind {α : Type} (step : List Dep → α → PRes)
    (hstep : ∀ acc x e acc2, step acc x = .error (e, acc2) → e = PEKind.typeErr) :
    ∀ (l : List α) (acc : List Dep) (e : PEKind) (acc2 : List Dep),
      foldE step l acc = .error (e, acc2) → e = PEKind.typeErr := by
  intro l
  induction l with
  | nil => intro acc e acc2 h; simp [foldE] at h
  | cons x xs ih =>
    intro acc e acc2 h
    unfold foldE at h
    cases hs : step acc x with
    | error p =>
      rw [hs] at h
      injection h with h1
      subst h1
      exact hstep acc x e acc2 hs
    | ok acc' =>
      rw [hs] at h
      exact ih acc' e acc2 h

theorem parsePackageJsonWith_err_kind (coerce : Bool) (j : Json) (e : PEKind) (acc : List Dep)
    (h : parsePackageJsonWith coerce j = .error (e, acc)) : e = PEKind.typeErr := by
  unfold parsePackageJsonWith at h
  cases hd : jsField j (strL "dependencies") with
  | error u => rw [hd] at h; cases h; rfl
  | ok depsO =>
    rw [hd] at h
    cases hv : jsField j (strL "devDependencies") with
    | error u => rw [hv] at h; cases h; rfl
    | ok devO =>
      rw [hv] at h
      refine foldE_err_kind _ ?_ _ _ _ _ h
      intro a kv e2 a2 hs
      cases hvs : jsVersionString coerce kv.2 with
      | error u => rw [hvs] at hs; cases hs; rfl
      | ok vs => rw [hvs] at hs; cases hs

theorem parseComposerJsonWith_err_kind (coerce : Bool) (j : Json) (e : PEKind) (acc : List Dep)
    (h : parseComposerJsonWith coerce j = .error (e, acc)) : e = PEKind.typeErr := by
  unfold parseComposerJsonWith at h
  cases hd : jsField j (strL "require") with
  | error u => rw [hd] at h; cases h; rfl
  | ok reqO =>
    rw [hd] at h
    cases hv : jsField j (strL "require-dev") with
    | error u => rw [hv] at h; cases h; rfl
    | ok devO =>
      rw [hv] at h
      refine foldE_err_kind _ ?_ _ _ _ _ h
      intro a kv e2 a2 hs
      split at hs
      · cases hvs : jsVersionString coerce kv.2 with
        | error u => rw [hvs] at hs; cases hs; rfl
        | ok vs => rw [hvs] at hs; cases hs
      · cases hs

theorem parsePackageLockMain_err_kind (j : Json) (e : PEKind) (acc : List Dep)
    (h : parsePackageLockMain j = .error (e, acc)) : e = PEKind.typeErr := by
  unfold parsePackageLockMain at h
  split at h
  · cases h; rfl
  · split at h
    · split at h
      · cases h; rfl
      · split at h
        all_goals
          dsimp only at h
          split at h
          · cases h; rfl
          · split at h
            · cases h; rfl
            · refine foldE_err_kind _ ?_ _ _ _ _ h
              intro a kv e2 a2 hs
              obtain ⟨pkgPath, pkgInfo⟩ := kv
              dsimp only at hs
              split at hs
              · split at hs
                · split at hs
                  · cases hs; rfl
                  · split at hs
                    · cases hs
                    · cases hs
                · cases hs
              · cases hs
    · split at h
      · cases h; rfl
      · split at h
        · refine foldE_err_kind _ ?_ _ _ _ _ h
          intro a kv e2 a2 hs
          obtain ⟨name, info⟩ := kv
          dsimp only at hs
          split at hs
          · cases hs; rfl
          · split at hs
            · cases hs
            · cases hs
        · cases h

theorem parsePipfileLockSection_err_kind (o : Option Json) (isDev : Bool)
    (acc0 : List Dep) (e : PEKind) (acc : List Dep)
    (h : parsePipfileLockSection o isDev acc0 = .error (e, acc)) : e = PEKind.typeErr := by
  unfold parsePipfileLockSection at h
  refine foldE_err_kind _ ?_ _ _ _ _ h
  intro a kv e2 a2 hs
  obtain ⟨name, info⟩ := kv
  dsimp only at hs
  split at hs
  · cases hs; rfl
  · split at hs
    · cases hs
    · cases hs
    · cases hs
    · cases hs; rfl

theorem parsePipfileLockMain_err_kind (j : Json) (e : PEKind) (acc : List Dep)
    (h : parsePipfileLockMain j = .error (e, acc)) : e = PEKind.typeErr := by
  unfold parsePipfileLockMain at h
  split at h
  · cases h; rfl
  · rename_i defO heq0
    split at h
    · rename_i e' heq1
      injection h with h1
      subst h1
      exact parsePipfileLockSection_err_kind _ _ _ _ _ heq1
    · rename_i acc' heq1
      split at h
      · cases h; rfl
      · exact parsePipfileLockSection_err_kind _ _ _ _ _ h

theorem parseBodyMain_error_shape (n c : List Char) (e : PEKind) (acc : List Dep)
    (h : parseBodyMain n c = .error (e, acc)) :
    isJsonFormatMain n = true ∧ (e = PEKind.badJson → acc = []) := by
  unfold parseBodyMain at h
  by_cases h1 : n = strL "package.json"
  · rw [if_pos h1] at h
    split at h
    · cases h
      exact ⟨by subst h1; decide, fun _ => rfl⟩
    · have hk := parsePackageJsonWith_err_kind false _ e acc h
      refine ⟨by subst h1; decide, ?_⟩
      intro hb
      rw [hb] at hk
      cases hk
  rw [if_neg h1] at h
  by_cases h2 : n = strL "package-lock.json"
  · rw [if_pos h2] at h
    split at h
    · cases h
      exact ⟨by subst h2; decide, fun _ => rfl⟩
    · have hk := parsePackageLockMain_err_kind _ e acc h
      refine ⟨by subst h2; decide, ?_⟩
      intro hb
      rw [hb] at hk
      cases hk
  rw [if_neg h2] at h
  by_cases h3 : n = strL "yarn.lock"
  · rw [if_pos h3] at h
    cases h
  rw [if_neg h3] at h
  by_cases h4 : n = strL "requirements.txt"
  · rw [if_pos h4] at h
    cases h
  rw [if_neg h4] at h
  by_cases h5 : n = strL "Cargo.toml"
  · rw [if_pos h5] at h
    cases h
  rw [if_neg h5] at h
  by_cases h6 : n = strL "Cargo.lock"
  · rw [if_pos h6] at h
    cases h
  rw [if_neg h6] at h
  by_cases h7 : n = strL "go.mod"
  · rw [if_pos h7] at h
    cases h
  rw [if_neg h7] at h
  by_cases h8 : n = strL "go.sum"
  · rw [if_pos h8] at h
    cases h
  rw [if_neg h8] at h
  by_cases h9 : n = strL "Gemfile"
  · rw [if_pos h9] at h
    cases h
  rw [if_neg h9] at h
  by_cases h10 : n = strL "Gemfile.lock"
  · rw [if_pos h10] at h
    cases h
  rw [if_neg h10] at h
  by_cases h11 : n = strL "Pipfile"
  · rw [if_pos h11] at h
    cases h
  rw [if_neg h11] at h
  by_cases h12 : n = strL "Pipfile.lock"
  · rw [if_pos h12] at h
    split at h
    · cases h
      exact ⟨by subst h12; decide, fun _ => rfl⟩
    · have hk := parsePipfileLockMain_err_kind _ e acc h
      refine ⟨by subst h12; decide, ?_⟩
      intro hb
      rw [hb] at hk
      cases hk
  rw [if_neg h12] at h
  by_cases h13 : n = strL "pyproject.toml"
  · rw [if_pos h13] at h
    cases h
  rw [if_neg h13] at h
  by_cases h14 : n = strL "composer.json"
  · rw [if_pos h14] at h
    split at h
    · cases h
      exact ⟨by subst h14; decide, fun _ => rfl⟩
    · have hk := parseComposerJsonWith_err_kind false _ e acc h
      refine ⟨by subst h14; decide, ?_⟩
      intro hb
      rw [hb] at hk
      cases hk
  rw [if_neg h14] at h
  by_cases h15 : n = strL "pubspec.yaml"
  · rw [if_pos h15] at h
    cases h
  rw [if_neg h15] at h
  by_cases h16 : n = strL "Podfile"
  · rw [if_pos h16] at h
    cases h
  rw [if_neg h16] at h
  by_cases h17 : n = strL "Podfile.lock"
  · rw [if_pos h17] at h
    cases h
  rw [if_neg h17] at h
  by_cases h18 : n = strL "Package.swift"
  · rw [if_pos h18] at h
    cases h
  rw [if_neg h18] at h
  by_cases h19 : n = strL "build.gradle"
  · rw [if_pos h19] at h
    cases h
  rw [if_neg h19] at h
  by_cases h20 : n = strL "build.gradle.kts"
  · rw [if_pos h20] at h
    cases h
  rw [if_neg h20] at h
  by_cases h21 : n = strL "pom.xml"
  · rw [if_pos h21] at h
    cases h
  rw [if_neg h21] at h
  cases h

theorem parseBodyExt_error_shape (n c : List Char) (e : PEKind) (acc : List Dep)
    (h : parseBodyExt n c = .error (e, acc)) :
    isJsonFormatExt n = true ∧ (e = PEKind.badJson → acc = []) := by
  unfold parseBodyExt at h
  by_cases h1 : n = strL "package.json"
  · rw [if_pos h1] at h
    split at h
    · cases h
      exact ⟨by subst h1; decide, fun _ => rfl⟩
    · have hk := parsePackageJsonWith_err_kind true _ e acc h
      refine ⟨by subst h1; decide, ?_⟩
      intro hb
      rw [hb] at hk
      cases hk
  rw [if_neg h1] at h
  by_cases h2 : n = strL "requirements.txt"
  · rw [if_pos h2] at h
    cases h
  rw [if_neg h2] at h
  by_cases h3 : n = strL "Cargo.toml"
  · rw [if_pos h3] at h
    cases h
  rw [if_neg h3] at h
  by_cases h4 : n = strL "go.mod"
  · rw [if_pos h4] at h
    cases h
  rw [if_neg h4] at h
  by_cases h5 : n = strL "Gemfile"
  · rw [if_pos h5] at h
    cases h
  rw [if_neg h5] at h
  by_cases h6 : n = strL "composer.json"
  · rw [if_pos h6] at h
    split at h
    · cases h
      exact ⟨by subst h6; decide, fun _ => rfl⟩
    · have hk := parseComposerJsonWith_err_kind true _ e acc h
      refine ⟨by subst h6; decide, ?_⟩
      intro hb
      rw [hb] at hk
      cases hk
  rw [if_neg h6] at h
  by_cases h7 : n = strL "pom.xml"
  · rw [if_pos h7] at h
    cases h
  rw [if_neg h7] at h
  by_cases h8 : n = strL "build.gradle"
  · rw [if_pos h8] at h
    cases h
  rw [if_neg h8] at h
  cases h

/-- C1 counterexample to the claim as stated: on the Electron host a
package.json whose second version value is a number throws a TypeError
mid-loop (version.replace on a non-string); the catch falls through to
`return dependencies`, so the caller receives the nonempty partial list. -/
theorem parse_failure_partial_list :
    parseBodyMain (strL "package.json") c1Content
      = .error (.typeErr, [⟨strL "a", strL "1.0.0", "npm", "prod"⟩])
    ∧ parseDependencyFileMain (strL "package.json") c1Content ≠ [] :=
  ⟨rfl, by decide⟩

/-- C1 (amended): parse(fileName, content) never throws to its caller: for a
file within the size cap a caught internal failure returns exactly the
dependencies accumulated before the throw.  Only the JSON-based formats can
fail at all, and a malformed-JSON failure (JSON.parse at the head of the
branch, before any push) returns the empty list — but a mid-loop type
failure returns the possibly nonempty partial list, on both hosts. -/
theorem parse_failures_json_only_and_degrade (n c : List Char)
    (hsize : c.length ≤ MAX_FILE_SIZE) :
    (∀ e acc, parseBodyMain n c = .error (e, acc) →
        isJsonFormatMain n = true ∧ parseDependencyFileMain n c = acc
          ∧ (e = PEKind.badJson → acc = []))
    ∧ (∀ e acc, parseBodyExt n c = .error (e, acc) →
        isJsonFormatExt n = true ∧ parseDependencyFileExt n c = acc
          ∧ (e = PEKind.badJson → acc = [])) := by
  constructor
  · intro e acc h
    obtain ⟨hj, hbad⟩ := parseBodyMain_error_shape n c e acc h
    refine ⟨hj, ?_, hbad⟩
    unfold parseDependencyFileMain
    rw [if_neg (not_lt.mpr hsize), h]
  · intro e acc h
    obtain ⟨hj, hbad⟩ := parseBodyExt_error_shape n c e acc h
    refine ⟨hj, ?_, hbad⟩
    unfold parseDependencyFileExt
    rw [if_neg (not_lt.mpr hsize), h]

theorem parse_failures_json_only_and_degrade_witness :
    (isJsonFormatMain (strL "package.json") = true
      ∧ parseDependencyFileMain (strL "package.json") c1Content
          = [⟨strL "a", strL "1.0.0", "npm", "prod"⟩]
      ∧ (PEKind.typeErr = PEKind.badJson →
          [(⟨strL "a", strL "1.0.0", "npm", "prod"⟩ : Dep)] = []))
    ∧ (isJsonFormatExt (strL "package.json") = true
      ∧ parseDependencyFileExt (strL "package.json") (strL "\x7b") = []
      ∧ (PEKind.badJson = PEKind.badJson → ([] : List Dep) = [])) :=
  ⟨(parse_failures_json_only_and_degrade (strL "package.json") c1Content (by decide)).1
      .typeErr [⟨strL "a", strL "1.0.0", "npm", "prod"⟩] rfl,
   (parse_failures_json_only_and_degrade (strL "package.json") (strL "\x7b") (by decide)).2
      .badJson [] rfl⟩

/-!  C3: dedup, first-wins tagging and the final sort. -/

theorem idEq_symm (x y : Option Json) : idEq x y = idEq y x := by
  cases x with
  | none => cases y with
    | none => rfl
    | some v => cases v <;> rfl
  | some v =>
    cases v <;> cases y with
    | none => rfl
    | some w =>
      cases w <;> first
        | rfl
        | (simp only [idEq]; exact decide_eq_decide.mpr eq_comm)
        | (simp only [idEq, numEqv]; exact Bool.and_comm _ _)

theorem idEq_str_true {a : List Char} {y : Option Json}
    (h : idEq (some (Json.str a)) y = true) : y = some (Json.str a) := by
  cases y with
  | none => simp [idEq] at h
  | some w =>
    cases w <;> simp [idEq] at h
    rw [h]

theorem idEq_refl_str (a : List Char) : idEq (some (Json.str a)) (some (Json.str a)) = true := by
  simp [idEq]

theorem runBatchesF_state (fetch : List Char → Except FetchFail (List CVERec)) :
    ∀ (fl : Nat) (products : List Product) (first : Bool)
      (st : List (Option Json) × List TaggedCVE),
      products.length ≤ BATCH_SIZE * fl →
      (runBatchesF fetch fl products first st).2
        = products.foldl (fun s p => processProduct fetch s p) st := by
  intro fl
  induction fl with
  | zero =>
    intro products first st hlen
    simp only [BATCH_SIZE, Nat.mul_zero, Nat.le_zero, List.length_eq_zero] at hlen
    subst hlen
    rfl
  | succ f ih =>
    intro products first st hlen
    cases products with
    | nil => rfl
    | cons p ps =>
      unfold runBatchesF
      dsimp only
      rcases hrec : runBatchesF fetch f ((p :: ps).drop BATCH_SIZE) false
          (((p :: ps).take BATCH_SIZE).foldl (fun s q => processProduct fetch s q) st) with ⟨evs2, stF⟩
      dsimp only
      have h2 := ih ((p :: ps).drop BATCH_SIZE) false
        (((p :: ps).take BATCH_SIZE).foldl (fun s q => processProduct fetch s q) st)
        (by simp only [List.length_drop]; simp only [BATCH_SIZE] at hlen ⊢; omega)
      rw [hrec] at h2
      dsimp only at h2
      rw [h2, ← List.foldl_append]
      rw [List.take_append_drop]

theorem any_idEq_of_mem (seen : List (Option Json)) (a : List Char)
    (hmem : some (Json.str a) ∈ seen) :
    seen.any (fun s => idEq s (some (Json.str a))) = true := by
  rw [List.any_eq_true]
  exact ⟨_, hmem, idEq_refl_str a⟩

theorem mem_of_any_idEq (seen : List (Option Json))
    (hseen : ∀ x ∈ seen, ∃ s, x = some (Json.str s)) (a : List Char)
    (h : seen.any (fun s => idEq s (some (Json.str a))) = true) :
    some (Json.str a) ∈ seen := by
  rw [List.any_eq_true] at h
  obtain ⟨x, hx, hid⟩ := h
  obtain ⟨b, rfl⟩ := hseen x hx
  rw [idEq_symm] at hid
  rw [← idEq_str_true hid]
  exact hx

theorem find?_append_of_false {α : Type} (p : α → Bool) (l1 l2 : List α)
    (h : ∀ x ∈ l1, p x = false) : (l1 ++ l2).find? p = l2.find? p := by
  induction l1 with
  | nil => rfl
  | cons x xs ih =>
    rw [List.cons_append, List.find?_cons_of_neg]
    · exact ih (fun y hy => h y (List.mem_cons_of_mem x hy))
    · simp [h x (List.mem_cons_self x xs)]

theorem dedupFold_inv (fetch : List Char → Except FetchFail (List CVERec))
    (products pre suf : List Product) (q : Product)
    (hsplit : products = pre ++ q :: suf)
    (hids : ∀ p ∈ products, ∀ r ∈ catchEmpty (fetch (keywordOf p)),
      ∃ s, r.id = some (Json.str s)) :
    ∀ (rs : List CVERec) (st : List (Option Json) × List TaggedCVE),
      (∀ r ∈ rs, r ∈ catchEmpty (fetch (keywordOf q))) →
      DedupInv fetch products pre st →
      DedupInv fetch products pre (rs.foldl (dedupStep q.name) st)
      ∧ (∀ x ∈ st.1, x ∈ (rs.foldl (dedupStep q.name) st).1)
      ∧ (∀ r ∈ rs, r.id ∈ (rs.foldl (dedupStep q.name) st).1) := by
  intro rs
  induction rs with
  | nil =>
    intro st _ hinv
    exact ⟨hinv, fun x hx => hx, by simp⟩
  | cons r rs ih =>
    intro st hrs hinv
    obtain ⟨seen, acc⟩ := st
    have hqin : q ∈ products := by
      rw [hsplit]; exact List.mem_append_right _ (List.mem_cons_self _ _)
    have hrmem : r ∈ catchEmpty (fetch (keywordOf q)) := hrs r (List.mem_cons_self _ _)
    have hrs' : ∀ r' ∈ rs, r' ∈ catchEmpty (fetch (keywordOf q)) :=
      fun r' h' => hrs r' (List.mem_cons_of_mem _ h')
    obtain ⟨sr, hsr⟩ := hids q hqin r hrmem
    simp only [List.foldl_cons]
    by_cases hseen : seen.any (fun s => idEq s r.id) = true
    · have hstep : dedupStep q.name (seen, acc) r = (seen, acc) := by
        unfold dedupStep
        dsimp only
        rw [if_pos hseen]
      rw [hstep]
      have hres := ih (seen, acc) hrs' hinv
      refine ⟨hres.1, hres.2.1, ?_⟩
      intro r2 hr2
      rcases List.mem_cons.mp hr2 with h' | h'
      · subst h'
        have hmem : r2.id ∈ seen := by
          rw [hsr] at hseen ⊢
          exact mem_of_any_idEq seen hinv.1 sr hseen
        exact hres.2.1 _ hmem
      · exact hres.2.2 r2 h'
    · have hstep : dedupStep q.name (seen, acc) r = (r.id :: seen, acc ++ [⟨r, q.name⟩]) := by
        unfold dedupStep
        dsimp only
        rw [if_neg hseen]
      rw [hstep]
      obtain ⟨h1, h2, h3, h4, h5, h6, h7⟩ := hinv
      have hnotin : r.id ∉ seen := by
        intro hmem
        apply hseen
        rw [hsr] at hmem ⊢
        exact any_idEq_of_mem seen sr hmem
      have hcross : ∀ a ∈ acc, idEq a.cve.id r.id = false := by
        intro a ha
        by_contra hne
        have htrue : idEq a.cve.id r.id = true := by
          cases hbb : idEq a.cve.id r.id with
          | false => exact absurd hbb hne
          | true => rfl
        obtain ⟨sa, hsa⟩ := h2 a ha
        rw [hsa, hsr] at htrue
        have heq := idEq_str_true htrue
        apply hnotin
        rw [hsr, heq, ← hsa]
        exact h3 a ha
      have hinv' : DedupInv fetch products pre (r.id :: seen, acc ++ [⟨r, q.name⟩]) := by
        refine ⟨?_, ?_, ?_, ?_, ?_, ?_, ?_⟩
        · intro x hx
          rcases List.mem_cons.mp hx with h' | h'
          · subst h'; exact ⟨sr, hsr⟩
          · exact h1 x h'
        · intro t ht
          rcases List.mem_append.mp ht with h' | h'
          · exact h2 t h'
          · rcases List.mem_singleton.mp h' with rfl
            exact ⟨sr, hsr⟩
        · intro t ht
          rcases List.mem_append.mp ht with h' | h'
          · exact List.mem_cons_of_mem _ (h3 t h')
          · rcases List.mem_singleton.mp h' with rfl
            exact List.mem_cons_self _ _
        · intro x hx
          rcases List.mem_cons.mp hx with h' | h'
          · subst h'
            exact ⟨⟨r, q.name⟩, List.mem_append_right _ (List.mem_singleton_self _), rfl⟩
          · obtain ⟨t, ht, hte⟩ := h4 x h'
            exact ⟨t, List.mem_append_left _ ht, hte⟩
        · rw [List.pairwise_append]
          refine ⟨h5, List.pairwise_singleton _ _, ?_⟩
          intro a ha b hb
          rcases List.mem_singleton.mp hb with rfl
          exact hcross a ha
        · intro t ht
          rcases List.mem_append.mp ht with h' | h'
          · exact h6 t h'
          · rcases List.mem_singleton.mp h' with rfl
            refine ⟨q, ?_, rfl⟩
            rw [hsplit]
            rw [find?_append_of_false]
            · rw [List.find?_cons_of_pos]
              rw [List.any_eq_true]
              exact ⟨r, hrmem, by rw [hsr]; exact idEq_refl_str sr⟩
            · intro p hp
              cases hbb : (catchEmpty (fetch (keywordOf p))).any
                  (fun r' => idEq r'.id (TaggedCVE.mk r q.name).cve.id) with
              | true =>
                exfalso
                rw [List.any_eq_true] at hbb
                obtain ⟨r', hr'mem, hr'id⟩ := hbb
                obtain ⟨s', hs'⟩ := hids p (by rw [hsplit]; exact List.mem_append_left _ hp) r' hr'mem
                rw [hs'] at hr'id
                have heq := idEq_str_true hr'id
                apply hnotin
                rw [heq, ← hs']
                exact h7 p hp r' hr'mem
              | false => rfl
        · intro p hp r' hr'
          exact List.mem_cons_of_mem _ (h7 p hp r' hr')
      have hres := ih _ hrs' hinv'
      refine ⟨hres.1, ?_, ?_⟩
      · intro x hx
        exact hres.2.1 x (List.mem_cons_of_mem _ hx)
      · intro r2 hr2
        rcases List.mem_cons.mp hr2 with h' | h'
        · subst h'
          exact hres.2.1 _ (List.mem_cons_self _ _)
        · exact hres.2.2 r2 h'

theorem processFold_inv (fetch : List Char → Except FetchFail (List CVERec))
    (products : List Product)
    (hids : ∀ p ∈ products, ∀ r ∈ catchEmpty (fetch (keywordOf p)),
      ∃ s, r.id = some (Json.str s)) :
    ∀ (suf pre : List Product) (st : List (Option Json) × List TaggedCVE),
      products = pre ++ suf →
      DedupInv fetch products pre st →
      DedupInv fetch products products
        (suf.foldl (fun s p => processProduct fetch s p) st) := by
  intro suf
  induction suf with
  | nil =>
    intro pre st hsplit hinv
    rw [List.append_nil] at hsplit
    subst hsplit
    exact hinv
  | cons q qs ih =>
    intro pre st hsplit hinv
    simp only [List.foldl_cons]
    have hstep := dedupFold_inv fetch products pre qs q hsplit hids
      (catchEmpty (fetch (keywordOf q))) st (fun r hr => hr) hinv
    have hpp : processProduct fetch st q
        = (catchEmpty (fetch (keywordOf q))).foldl (dedupStep q.name) st := rfl
    rw [hpp]
    refine ih (pre ++ [q]) _ ?_ ?_
    · rw [hsplit, List.append_assoc]
      rfl
    · obtain ⟨g1, g2, g3, g4, g5, g6, g7⟩ := hstep.1
      refine ⟨g1, g2, g3, g4, g5, g6, ?_⟩
      intro p hp r hr
      rcases List.mem_append.mp hp with h' | h'
      · exact g7 p h' r hr
      · rcases List.mem_singleton.mp h' with rfl
        exact hstep.2.2 r hr

/-- C3: the list fetchCVEsForProducts returns carries at most one record per
vulnerability id — pairwise distinct ids — every id any product's fetch
yields is represented, each entry is tagged with the name of the first
product in iteration order whose fetch carries its id, and the list is
sorted by descending publication timestamp.  The hypothesis that every
fetched id is a string holds for every response that passed validation. -/
theorem fetch_products_dedup_first_wins_sorted
    (fetch : List Char → Except FetchFail (List CVERec)) (products : List Product)
    (hids : ∀ p ∈ products, ∀ r ∈ catchEmpty (fetch (keywordOf p)),
      ∃ s, r.id = some (Json.str s)) :
    ((fetchCVEsForProducts fetch products).2.Pairwise
        (fun a b => idEq a.cve.id b.cve.id = false))
    ∧ (∀ p ∈ products, ∀ r ∈ catchEmpty (fetch (keywordOf p)),
        ∃ t ∈ (fetchCVEsForProducts fetch products).2, idEq t.cve.id r.id = true)
    ∧ (∀ t ∈ (fetchCVEsForProducts fetch products).2,
        ∃ p, products.find? (fun p =>
            (catchEmpty (fetch (keywordOf p))).any (fun r => idEq r.id t.cve.id)) = some p
          ∧ t.matchedProduct = p.name)
    ∧ (fetchCVEsForProducts fetch products).2.Sorted pubGE := by
  cases products with
  | nil =>
    refine ⟨?_, ?_, ?_, ?_⟩ <;> simp [fetchCVEsForProducts, List.Sorted]
  | cons p0 ps =>
    have hout : (fetchCVEsForProducts fetch (p0 :: ps)).2
        = sortPubDesc (((p0 :: ps).foldl (fun s p => processProduct fetch s p) ([], [])).2) := by
      unfold fetchCVEsForProducts
      rcases hrb : runBatchesF fetch ((p0 :: ps).length + 1) (p0 :: ps) true ([], []) with ⟨evs, st⟩
      dsimp only
      have hst := runBatchesF_state fetch ((p0 :: ps).length + 1) (p0 :: ps) true ([], [])
        (by simp only [BATCH_SIZE]; omega)
      rw [hrb] at hst
      dsimp only at hst
      rw [hst]
    have hfin := processFold_inv fetch (p0 :: ps) hids (p0 :: ps) [] ([], [])
      rfl ⟨by simp, by simp, by simp, by simp, List.Pairwise.nil, by simp, by simp⟩
    obtain ⟨g1, g2, g3, g4, g5, g6, g7⟩ := hfin
    have hsym : Symmetric (fun (a b : TaggedCVE) => idEq a.cve.id b.cve.id = false) := by
      intro a b h
      rw [idEq_symm]
      exact h
    refine ⟨?_, ?_, ?_, ?_⟩
    · rw [hout]
      exact ((List.perm_insertionSort pubGE _).pairwise_iff (fun hxy => hsym hxy)).mpr g5
    · intro p hp r hr
      have hcov := g7 p hp r hr
      obtain ⟨t, ht, hte⟩ := g4 _ hcov
      obtain ⟨s, hs⟩ := hids p hp r hr
      refine ⟨t, ?_, ?_⟩
      · rw [hout]
        unfold sortPubDesc
        rw [List.mem_insertionSort]
        exact ht
      · rw [hte, hs]
        exact idEq_refl_str s
    · intro t ht
      rw [hout] at ht
      unfold sortPubDesc at ht
      rw [List.mem_insertionSort] at ht
      exact g6 t ht
    · rw [hout]
      exact List.sorted_insertionSort pubGE _

theorem fetch_products_dedup_first_wins_sorted_witness :
    ((fetchCVEsForProducts c3Fetch [c3PA, c3PB]).2.Pairwise
        (fun a b => idEq a.cve.id b.cve.id = false))
    ∧ (∀ p ∈ [c3PA, c3PB], ∀ r ∈ catchEmpty (c3Fetch (keywordOf p)),
        ∃ t ∈ (fetchCVEsForProducts c3Fetch [c3PA, c3PB]).2, idEq t.cve.id r.id = true)
    ∧ (∀ t ∈ (fetchCVEsForProducts c3Fetch [c3PA, c3PB]).2,
        ∃ p, ([c3PA, c3PB].find? (fun p =>
            (catchEmpty (c3Fetch (keywordOf p))).any (fun r => idEq r.id t.cve.id))) = some p
          ∧ t.matchedProduct = p.name)
    ∧ (fetchCVEsForProducts c3Fetch [c3PA, c3PB]).2.Sorted pubGE :=
  fetch_products_dedup_first_wins_sorted c3Fetch [c3PA, c3PB] (by
    have hA : catchEmpty (c3Fetch (keywordOf c3PA)) = [c3R1] := rfl
    have hB : catchEmpty (c3Fetch (keywordOf c3PB)) = [c3R2, c3R3] := rfl
    intro p hp r hr
    rcases List.mem_cons.mp hp with rfl | hp'
    · rw [hA] at hr
      rcases List.mem_singleton.mp hr with rfl
      exact ⟨strL "CVE-2024-0001", rfl⟩
    · rcases List.mem_singleton.mp hp' with rfl
      rw [hB] at hr
      rcases List.mem_cons.mp hr with rfl | hr'
      · exact ⟨strL "CVE-2024-0001", rfl⟩
      · rcases List.mem_singleton.mp hr' with rfl
        exact ⟨strL "CVE-2024-0002", rfl⟩)
